import Mathlib

/-
Verification of the DHCP reservation config-file editor
(scripts/dhcp_reservation_manager.py).

Configuration text is modelled as a list of characters (`Str`).  Python's
regex searches are embedded as executable backtracking matchers in
continuation-passing style, mirroring leftmost search, greedy/lazy
quantifier order and alternation order of the `re` module.  File system
and subprocess effects of the batch pipeline (`main`) are modelled by
explicit state passing: the on-disk file is a `Str`, the external syntax
oracle is a function `Str → Bool` evaluated on the saved content, and
restoring a backup is modelled as succeeding.  Whitespace classes and
`str.lower`/`int` parsing are modelled over ASCII; the Unicode extras of
Python's `\s`, `.lower()` and `int()` are outside the model.
-/

abbrev Str := List Char

/-- Python's `\s` class (ASCII part): space, tab, newline, carriage
return, vertical tab, form feed. -/
def pyIsSpace (c : Char) : Bool :=
  (c == ' ') || (c == '\t') || (c == '\n') || (c == '\r') || (c == '\x0b') || (c == '\x0c')

/-- Python `str.strip()`: drop whitespace from both ends. -/
def pyStrip (s : Str) : Str :=
  ((s.dropWhile pyIsSpace).reverse.dropWhile pyIsSpace).reverse

/-- Python `str.split('.')`: split on every dot, keeping empty pieces. -/
def splitOnDot : Str → List Str
  | [] => [[]]
  | c :: rest =>
    if c == '.' then [] :: splitOnDot rest
    else
      match splitOnDot rest with
      | h :: t => (c :: h) :: t
      | [] => [[c]]

/-- Digit tail of a Python integer literal: digits with single
underscores allowed between digits (`1_0`), never leading, trailing or
doubled. -/
def pyDigitsRest (acc : Nat) : Str → Option Nat
  | [] => some acc
  | '_' :: c :: t =>
    if c.isDigit then pyDigitsRest (acc * 10 + (c.toNat - 48)) t else none
  | '_' :: [] => none
  | c :: t =>
    if c.isDigit then pyDigitsRest (acc * 10 + (c.toNat - 48)) t else none

/-- Nonempty digit run starting a Python integer literal. -/
def pyDigits : Str → Option Nat
  | [] => none
  | c :: t => if c.isDigit then pyDigitsRest (c.toNat - 48) t else none

/-- Python `int(s)` on a decimal string: optional surrounding whitespace,
optional sign, then digits (with underscore separators). -/
def pyInt (s : Str) : Option Int :=
  match pyStrip s with
  | '+' :: r => (pyDigits r).map (fun n => (n : Int))
  | '-' :: r => (pyDigits r).map (fun n => -(n : Int))
  | r => (pyDigits r).map (fun n => (n : Int))

/-- `validate_ip_address` (source lines 35-42): split on `.`, require
exactly four components, each an integer in [0,255]; any parse failure
is caught and yields `False`. -/
def validate_ip_address (ip : Str) : Bool :=
  let parts := splitOnDot ip
  if parts.length == 4 then
    parts.all (fun p =>
      match pyInt p with
      | some n => decide ((0 : Int) ≤ n) && decide (n ≤ 255)
      | none => false)
  else false

/-- Lowercase every character (Python `str.lower()`, ASCII part). -/
def lowerStr (s : Str) : Str := s.map Char.toLower

/-- Python `str.replace('-', ':')`. -/
def dashToColon (s : Str) : Str := s.map (fun c => if c == '-' then ':' else c)

/-- Lowercase hex digit (the regex class `[0-9a-f]`). -/
def hexLower (c : Char) : Bool :=
  decide (c ∈ ['0', '1', '2', '3', '4', '5', '6', '7', '8', '9']) ||
    decide (c ∈ ['a', 'b', 'c', 'd', 'e', 'f'])

/-- `n` colon-separated pairs of lowercase hex digits
(the regex `[0-9a-f]{2}(:[0-9a-f]{2}){5}` at n = 6). -/
def macGroups : Nat → Str → Bool
  | 1, a :: b :: [] => hexLower a && hexLower b
  | n + 2, a :: b :: c :: t => hexLower a && hexLower b && (c == ':') && macGroups (n + 1) t
  | _, _ => false

/-- Full-match shape of a normalized MAC: six colon-joined hex pairs. -/
def macShape (s : Str) : Bool := macGroups 6 s

/-- `normalize_mac` (source lines 45-49): strip, lowercase, turn `-`
into `:`, then require the six-hex-pair shape, else `None`. -/
def normalize_mac (mac : Str) : Option Str :=
  let m := dashToColon (lowerStr (pyStrip mac))
  if macShape m then some m else none

/-- Python `str.endswith`. -/
def endsWith (s suf : Str) : Bool := List.isSuffixOf suf s

/-- FQDN computation used at source lines 53, 325, 387: append
`.{domain}` when a domain is given, nonempty and not already a suffix. -/
def buildFqdn (hostname : Str) (domain : Option Str) : Str :=
  match domain with
  | some d =>
    if (!d.isEmpty) && !(endsWith hostname ('.' :: d)) then hostname ++ '.' :: d
    else hostname
  | none => hostname

/-- `build_reservation_block` (source lines 52-60). -/
def build_reservation_block (hostname mac ip : Str) (domain : Option Str) : Str :=
  "host ".data ++ buildFqdn hostname domain ++ " \x7b\n  hardware ethernet ".data
    ++ mac ++ ";\n  fixed-address ".data ++ ip ++ ";\n\x7d\n".data

/-
Backtracking regex matchers in continuation-passing style.  Each
combinator feeds the continuation `k` candidate rests in the order the
`re` backtracking engine would try them and returns the first success.
-/

/-- Drop an exact (case-sensitive) literal. -/
def dropPre : Str → Str → Option Str
  | [], s => some s
  | _ :: _, [] => none
  | p :: ps, c :: t => if c == p then dropPre ps t else none

/-- Case-sensitive literal, then continue. -/
def litThen (pat : Str) (k : Str → Option R) (s : Str) : Option R :=
  match dropPre pat s with
  | some r => k r
  | none => none

/-- Case-insensitive literal (the `re.IGNORECASE` flag), then continue. -/
def litCIThen : Str → (Str → Option R) → Str → Option R
  | [], k, s => k s
  | _ :: _, _, [] => none
  | p :: ps, k, c :: t =>
    if Char.toLower c == Char.toLower p then litCIThen ps k t else none

/-- Greedy `\s*`: consume as much whitespace as possible, backtracking
one character at a time. -/
def wsStarThen (k : Str → Option R) : Str → Option R
  | [] => k []
  | c :: t =>
    if pyIsSpace c then
      match wsStarThen k t with
      | some r => some r
      | none => k (c :: t)
    else k (c :: t)

/-- Greedy `\s+`. -/
def wsPlusThen (k : Str → Option R) : Str → Option R
  | [] => none
  | c :: t => if pyIsSpace c then wsStarThen k t else none

/-- Greedy capturing star over a character class; the continuation
receives the captured characters and the rest. -/
def clsStarCapThen (cls : Char → Bool) (k : Str → Str → Option R) :
    Str → Str → Option R
  | acc, [] => k acc []
  | acc, c :: t =>
    if cls c then
      match clsStarCapThen cls k (acc ++ [c]) t with
      | some r => some r
      | none => k acc (c :: t)
    else k acc (c :: t)

/-- Greedy capturing plus over a character class (`(\S+)`,
`([0-9a-f:]+)`, `([\d.]+)`). -/
def clsPlusCapThen (cls : Char → Bool) (k : Str → Str → Option R) : Str → Option R
  | [] => none
  | c :: t => if cls c then clsStarCapThen cls k [c] t else none

/-- Lazy `[^\x7d]*?`: try the continuation first, else consume one
non-`\x7d` character. -/
def lazyNBThen (k : Str → Option R) : Str → Option R
  | [] => k []
  | c :: t =>
    match k (c :: t) with
    | some r => some r
    | none => if c == '\x7d' then none else lazyNBThen k t

/-- Lazy `[\s\S]*?`: try the continuation first, else consume any one
character. -/
def lazyAnyThen (k : Str → Option R) : Str → Option R
  | [] => k []
  | c :: t =>
    match k (c :: t) with
    | some r => some r
    | none => lazyAnyThen k t

/-- Complement of `\s` (the `\S` class). -/
def nonWsC (c : Char) : Bool := !pyIsSpace c

/-- The class `[0-9a-f:]` under `re.IGNORECASE` (so also `A`-`F`). -/
def hexColonC (c : Char) : Bool :=
  c.isDigit || (('a' ≤ c) && (c ≤ 'f')) || (('A' ≤ c) && (c ≤ 'F')) || (c == ':')

/-- The class `[\d.]` (ASCII digits and dot). -/
def digitDotC (c : Char) : Bool := c.isDigit || (c == '.')

/-- Attempt of the reservation-scanning regex (source lines 250-253 and
270-273)

`host\s+(\S+)\s*\{[^\}]*?hardware\s+ethernet\s+([0-9a-f:]+)\s*;[^\}]*?fixed-address\s+([\d.]+)\s*;[^\}]*?\}`

at the head of `s`; returns the three captures and the rest after the
match. -/
def matchResvAt (s : Str) : Option ((Str × Str × Str) × Str) :=
  litCIThen "host".data (fun s1 =>
    wsPlusThen (fun s2 =>
      clsPlusCapThen nonWsC (fun g1 s3 =>
        wsStarThen (fun s4 =>
          litThen "\x7b".data (fun s5 =>
            lazyNBThen (fun s6 =>
              litCIThen "hardware".data (fun s7 =>
                wsPlusThen (fun s8 =>
                  litCIThen "ethernet".data (fun s9 =>
                    wsPlusThen (fun s10 =>
                      clsPlusCapThen hexColonC (fun g2 s11 =>
                        wsStarThen (fun s12 =>
                          litThen ";".data (fun s13 =>
                            lazyNBThen (fun s14 =>
                              litCIThen "fixed-address".data (fun s15 =>
                                wsPlusThen (fun s16 =>
                                  clsPlusCapThen digitDotC (fun g3 s17 =>
                                    wsStarThen (fun s18 =>
                                      litThen ";".data (fun s19 =>
                                        lazyNBThen (fun s20 =>
                                          litThen "\x7d".data (fun s21 =>
                                            some ((g1, g2, g3), s21)) s20) s19) s18) s17) s16) s15) s14) s13) s12) s11) s10) s9) s8) s7) s6) s5) s4) s3) s2) s1) s

/-- `re.finditer` scan for the reservation regex: try each position left
to right, continue after each non-overlapping match.  The fuel argument
is an upper bound on the number of scan steps; callers pass the string
length. -/
def scanFrom : Nat → Str → List (Str × Str × Str)
  | 0, _ => []
  | _ + 1, [] => []
  | n + 1, c :: t =>
    match matchResvAt (c :: t) with
    | some (tr, rest) => tr :: scanFrom n rest
    | none => scanFrom n t

/-- `extract_all_reservations` (source lines 266-281): every match in
document order, MAC lowercased. -/
def extract_all_reservations (content : Str) : List (Str × Str × Str) :=
  (scanFrom content.length content).map (fun tr => (tr.1, lowerStr tr.2.1, tr.2.2))

/-- First scanned block whose lowercased MAC equals the query. -/
def firstByMac (nm : Str) : List (Str × Str × Str) → Option (Str × Str × Str)
  | [] => none
  | (f, m2, i) :: t =>
    if lowerStr m2 == nm then some (f, lowerStr m2, i) else firstByMac nm t

/-- `find_reservation_by_mac` (source lines 244-263): normalize the
query MAC, then return the first block in document order whose
lowercased MAC matches. -/
def find_reservation_by_mac (content mac : Str) : Option (Str × Str × Str) :=
  match normalize_mac mac with
  | none => none
  | some nm => firstByMac nm (scanFrom content.length content)

/-- Attempt of the block-location regex (source line 237)

`(^|\n)(host\s+FQDN\s*\{[\s\S]*?\n\})\n`

with the FQDN escaped to a literal, at the head of `s`; `s` must sit at
a line start.  Returns the rest after the whole match (group 1 resolves
to the empty alternative at a line start, so the span of group 2 starts
exactly here). -/
def matchHostBlockAt (fqdn : Str) (s : Str) : Option Str :=
  litThen "host".data (fun s1 =>
    wsPlusThen (fun s2 =>
      litThen fqdn (fun s3 =>
        wsStarThen (fun s4 =>
          litThen "\x7b".data (fun s5 =>
            lazyAnyThen (fun s6 =>
              litThen "\n\x7d\n".data (fun s7 => some s7) s6) s5) s4) s3) s2) s1) s

/-- Leftmost `re.search` scan for the block-location regex: try every
line-start position from left to right (`^` under `re.MULTILINE`, or the
consumed `\n` alternative of group 1, which selects the same group-2
span one position later). -/
def frbAux (fqdn : Str) : Str → Nat → Bool → Option (Nat × Nat)
  | [], _, _ => none
  | c :: t, pos, lineStart =>
    match (if lineStart then matchHostBlockAt fqdn (c :: t) else none) with
    | some rest => some (pos, pos + ((c :: t).length - rest.length))
    | none => frbAux fqdn t (pos + 1) (c == '\n')

/-- `find_reservation_block` (source lines 235-241): start and end
indices of the block for the given host, `none` for the `(-1, -1)`
sentinel.  `start` is the index of the `host` line, `end` the index just
past the closing brace line's terminator. -/
def find_reservation_block (content fqdn : Str) : Option (Nat × Nat) :=
  frbAux fqdn content 0 true

/-- Python slice `content[a:b]`. -/
def sliceStr (content : Str) (a b : Nat) : Str := (content.drop a).take (b - a)

/-- `remove_reservation` (source lines 386-393): locate by FQDN; absent
is `(content, False)`, else splice the span out. -/
def remove_reservation (content : Str) (hostname : Str) (domain : Option Str) :
    Str × Bool :=
  let fqdn := buildFqdn hostname domain
  match find_reservation_block content fqdn with
  | none => (content, false)
  | some (s, e) => (content.take s ++ content.drop e, true)

/-- Error message at source line 353. -/
def declineMsg : Str :=
  "User declined to overwrite conflicting reservation".data

/-- Error message at source line 359. -/
def remFailMsg (eh : Str) : Str :=
  "Failed to remove conflicting reservation for ".data ++ eh

/-- Error message at source line 361. -/
def conflictMsg (mac eh : Str) : Str :=
  "Conflict: MAC ".data ++ mac ++ " is already used by ".data ++ eh
    ++ ". Run in interactive mode to resolve conflicts.".data

/-- Tail of `add_reservation` (source lines 365-383): replace the block
for the FQDN if one is located, preserving a missing preceding newline,
else append at end of document (inserting a final newline first when
needed). -/
def applyAdd (content : Str) (hostname mac ip : Str) (domain : Option Str) :
    Str × Bool × Option Str :=
  let fqdn := buildFqdn hostname domain
  let block := build_reservation_block hostname mac ip domain
  match find_reservation_block content fqdn with
  | some (s, e) =>
    let pre : Str :=
      if s > 0 && !((content.drop (s - 1)).headD '\n' == '\n') then ['\n'] else []
    let newContent := content.take s ++ pre ++ block ++ content.drop e
    (newContent, (pre ++ block) != sliceStr content s e, none)
  | none =>
    let c2 :=
      if (!content.isEmpty) && !(content.getLast? == some '\n') then content ++ ['\n']
      else content
    (c2 ++ block, true, none)

/-- `add_reservation` (source lines 322-383).  The interactive prompt is
modelled by the `ans` flag: the answer `get_user_confirmation` would
return if asked. -/
def add_reservation (content : Str) (hostname mac ip : Str) (domain : Option Str)
    (interactive : Bool) (ans : Bool) : Str × Bool × Option Str :=
  let fqdn := buildFqdn hostname domain
  match find_reservation_by_mac content mac with
  | some (eh, _em, eip) =>
    if eh == fqdn && eip == ip then (content, false, none)
    else if eh == fqdn then applyAdd content hostname mac ip domain
    else
      if interactive then
        if !ans then (content, false, some declineMsg)
        else
          let pr := remove_reservation content ((splitOnDot eh).headD []) domain
          if !pr.2 then (pr.1, false, some (remFailMsg eh))
          else applyAdd pr.1 hostname mac ip domain
      else (content, false, some (conflictMsg mac eh))
  | none => applyAdd content hostname mac ip domain

/-- One iteration of the record loop in `main` (source lines 557-579)
for the `add` action: an error counts the record failed and leaves the
buffer; otherwise the record is ok and the buffer advances when
changed. -/
def recStep (domain : Option Str) (interactive : Bool) (st : Str × Nat × Nat)
    (r : Str × Str × Str × Bool) : Str × Nat × Nat :=
  let res := add_reservation st.1 r.1 r.2.1 r.2.2.1 domain interactive r.2.2.2
  if res.2.2.isSome then (st.1, st.2.1, st.2.2 + 1)
  else (res.1, st.2.1 + 1, st.2.2)

/-- The whole record loop of `main` over one evolving buffer, returning
the final buffer and the ok/fail counters. -/
def processRecords (content : Str) (recs : List (Str × Str × Str × Bool))
    (domain : Option Str) (interactive : Bool) : Str × Nat × Nat :=
  recs.foldl (recStep domain interactive) (content, 0, 0)

/-- The batch pipeline of `main` for the `add` action (source lines
519-613), with the file system and the external validator abstracted:
`disk` is the configuration file content, `oracle` the syntax
validator's verdict on a given content (a missing validator binary
reports valid), backup taking and restoring always succeed.  Returns
the final on-disk content and the process exit code. -/
def mainAdd (disk : Str) (recs : List (Str × Str × Str × Bool))
    (domain : Option Str) (interactive noBackup skipValidation : Bool)
    (oracle : Str → Bool) : Str × Nat :=
  if (!skipValidation) && !oracle disk then (disk, 1)
  else
    let backup : Option Str := if noBackup then none else some disk
    let st := processRecords disk recs domain interactive
    if (!skipValidation) && !oracle st.1 then
      match backup with
      | some b => (b, 1)
      | none => (st.1, 1)
    else (st.1, if st.2.2 == 0 then 0 else 1)

/-
Lemma toolkit for the matchers.
-/

theorem hostData : "host".data = 'h' :: 'o' :: 's' :: 't' :: [] := rfl

theorem wsChars (h : pyIsSpace c = true) :
    c = ' ' ∨ c = '\t' ∨ c = '\n' ∨ c = '\r' ∨ c = '\x0b' ∨ c = '\x0c' := by
  have h' := h
  simp [pyIsSpace] at h'
  tauto

theorem ws_toLower (h : pyIsSpace c = true) : Char.toLower c = c := by
  rcases wsChars h with rfl | rfl | rfl | rfl | rfl | rfl <;> decide

theorem ws_beq_false (hc : pyIsSpace c = true) (hd : pyIsSpace d = false) :
    (c == d) = false := by
  rw [beq_eq_false_iff_ne]
  rintro rfl
  rw [hc] at hd
  simp at hd

theorem dropPre_self (pat s : Str) : dropPre pat (pat ++ s) = some s := by
  induction pat with
  | nil => rfl
  | cons p ps ih => simp [dropPre, ih]

theorem litThen_cat (pat : Str) (k : Str → Option R) (s : Str) :
    litThen pat k (pat ++ s) = k s := by
  simp [litThen, dropPre_self]

theorem litThen_fail (h : (c == p) = false) (k : Str → Option R) :
    litThen (p :: ps) k (c :: t) = none := by
  simp [litThen, dropPre, h]

theorem litCIThen_cat (pat : Str) (k : Str → Option R) (s : Str) :
    litCIThen pat k (pat ++ s) = k s := by
  induction pat with
  | nil => rfl
  | cons p ps ih => simp [litCIThen, ih]

theorem litCIThen_fail (h : (Char.toLower c == Char.toLower p) = false)
    (k : Str → Option R) : litCIThen (p :: ps) k (c :: t) = none := by
  simp [litCIThen, h]

/-- Head of `s` is not whitespace (or `s` is empty). -/
def headNotWs (s : Str) : Bool :=
  match s with
  | [] => true
  | c :: _ => !pyIsSpace c

/-- Head of `s` is outside the class (or `s` is empty). -/
def headNotCls (cls : Char → Bool) (s : Str) : Bool :=
  match s with
  | [] => true
  | c :: _ => !cls c

theorem wsStar_cat (hw : ∀ c ∈ w, pyIsSpace c = true) (hs : headNotWs s = true)
    (hk : k s = some r) : wsStarThen k (w ++ s) = some r := by
  induction w with
  | nil =>
    cases s with
    | nil => simpa [wsStarThen] using hk
    | cons c t =>
      have : pyIsSpace c = false := by simpa [headNotWs] using hs
      simpa [wsStarThen, this] using hk
  | cons a w' ih =>
    have ha : pyIsSpace a = true := hw a (by simp)
    have ih' := ih (fun c hc => hw c (List.mem_cons_of_mem _ hc))
    simp [wsStarThen, ha, ih']

theorem wsPlus_cat (hw : ∀ c ∈ w, pyIsSpace c = true) (hne : w ≠ [])
    (hs : headNotWs s = true) (hk : k s = some r) :
    wsPlusThen k (w ++ s) = some r := by
  cases w with
  | nil => exact absurd rfl hne
  | cons a w' =>
    have ha : pyIsSpace a = true := hw a (by simp)
    have := wsStar_cat (w := w') (k := k) (fun c hc => hw c (List.mem_cons_of_mem _ hc)) hs hk
    simp [wsPlusThen, ha, this]

theorem wsStar_fail (hw : ∀ c ∈ w, pyIsSpace c = true) (hs : headNotWs s = true)
    (hfailws : ∀ c t, pyIsSpace c = true → k (c :: t) = none)
    (hfail : k s = none) : wsStarThen k (w ++ s) = none := by
  induction w with
  | nil =>
    cases s with
    | nil => simpa [wsStarThen] using hfail
    | cons c t =>
      have : pyIsSpace c = false := by simpa [headNotWs] using hs
      simpa [wsStarThen, this] using hfail
  | cons a w' ih =>
    have ha : pyIsSpace a = true := hw a (by simp)
    have ih' := ih (fun c hc => hw c (List.mem_cons_of_mem _ hc))
    simp [wsStarThen, ha, ih', hfailws a (w' ++ s) ha]

theorem clsStar_cat {q : Char → Bool} {w s : Str} {k : Str → Str → Option R} {r : R}
    (hw : ∀ c ∈ w, q c = true) (hs : headNotCls q s = true) :
    ∀ a, k (a ++ w) s = some r → clsStarCapThen q k a (w ++ s) = some r := by
  induction w with
  | nil =>
    intro a hk
    simp only [List.append_nil] at hk
    cases s with
    | nil => simpa [clsStarCapThen] using hk
    | cons c t =>
      have : q c = false := by simpa [headNotCls] using hs
      simpa [clsStarCapThen, this] using hk
  | cons x w' ih =>
    intro a hk
    have hx : q x = true := hw x (by simp)
    have hk' : k ((a ++ [x]) ++ w') s = some r := by simpa using hk
    have ih' := ih (fun c hc => hw c (List.mem_cons_of_mem _ hc)) (a ++ [x]) hk'
    simp [clsStarCapThen, hx, ih']

theorem clsPlus_cat {q : Char → Bool} {w s : Str} {k : Str → Str → Option R} {r : R}
    (hw : ∀ c ∈ w, q c = true) (hne : w ≠ [])
    (hs : headNotCls q s = true) (hk : k w s = some r) :
    clsPlusCapThen q k (w ++ s) = some r := by
  cases w with
  | nil => exact absurd rfl hne
  | cons x w' =>
    have hx : q x = true := hw x (by simp)
    have := clsStar_cat (fun c hc => hw c (List.mem_cons_of_mem _ hc)) hs [x] (by simpa using hk)
    simp [clsPlusCapThen, hx, this]

theorem clsStar_back1 {q : Char → Bool} {w s : Str} {b : Char} {k : Str → Str → Option R} {r : R}
    (hw : ∀ c ∈ w, q c = true) (hb : q b = true) (hs : headNotCls q s = true) :
    ∀ a, k ((a ++ w) ++ [b]) s = none → k (a ++ w) (b :: s) = some r →
      clsStarCapThen q k a (w ++ b :: s) = some r := by
  induction w with
  | nil =>
    intro a hfail hk
    simp only [List.append_nil] at hfail hk
    have hinner : clsStarCapThen q k (a ++ [b]) s = none := by
      cases s with
      | nil => simpa [clsStarCapThen] using hfail
      | cons c t =>
        have : q c = false := by simpa [headNotCls] using hs
        simpa [clsStarCapThen, this] using hfail
    simp [clsStarCapThen, hb, hinner, hk]
  | cons x w' ih =>
    intro a hfail hk
    have hx : q x = true := hw x (by simp)
    have hfail' : k ((a ++ [x]) ++ w' ++ [b]) s = none := by simpa using hfail
    have hk' : k ((a ++ [x]) ++ w') (b :: s) = some r := by simpa using hk
    have ih' := ih (fun c hc => hw c (List.mem_cons_of_mem _ hc)) (a ++ [x]) hfail' hk'
    simp [clsStarCapThen, hx, ih']

theorem clsPlus_back1 {q : Char → Bool} {w s : Str} {b : Char} {k : Str → Str → Option R} {r : R}
    (hw : ∀ c ∈ w, q c = true) (hne : w ≠ []) (hb : q b = true)
    (hs : headNotCls q s = true) (hfail : k (w ++ [b]) s = none)
    (hk : k w (b :: s) = some r) :
    clsPlusCapThen q k (w ++ b :: s) = some r := by
  cases w with
  | nil => exact absurd rfl hne
  | cons x w' =>
    have hx : q x = true := hw x (by simp)
    have := clsStar_back1 (fun c hc => hw c (List.mem_cons_of_mem _ hc)) hb hs [x]
      (by simpa using hfail) (by simpa using hk)
    simp [clsPlusCapThen, hx, this]

theorem lazyNB_hit (hk : k s = some r) : lazyNBThen k s = some r := by
  cases s with
  | nil => simpa [lazyNBThen] using hk
  | cons c t => simp [lazyNBThen, hk]

theorem lazyNB_skip (hw : ∀ c ∈ w, pyIsSpace c = true)
    (hfailws : ∀ c t, pyIsSpace c = true → k (c :: t) = none)
    (hk : lazyNBThen k s = some r) : lazyNBThen k (w ++ s) = some r := by
  induction w with
  | nil => simpa using hk
  | cons a w' ih =>
    have ha : pyIsSpace a = true := hw a (by simp)
    have hnb : (a == '\x7d') = false := ws_beq_false ha (by decide)
    have ih' := ih (fun c hc => hw c (List.mem_cons_of_mem _ hc))
    simp [lazyNBThen, hfailws a (w' ++ s) ha, hnb, ih']

theorem lazyAny_hit (hk : k s = some r) : lazyAnyThen k s = some r := by
  cases s with
  | nil => simpa [lazyAnyThen] using hk
  | cons c t => simp [lazyAnyThen, hk]

theorem lazyAny_step (hfail : k (c :: t) = none) :
    lazyAnyThen k (c :: t) = lazyAnyThen k t := by
  simp [lazyAnyThen, hfail]

theorem hexColon_nonWs (h : hexColonC c = true) : pyIsSpace c = false := by
  cases hps : pyIsSpace c with
  | false => rfl
  | true =>
    rcases wsChars hps with rfl | rfl | rfl | rfl | rfl | rfl <;> simp [hexColonC] at h

theorem digitDot_nonWs (h : digitDotC c = true) : pyIsSpace c = false := by
  cases hps : pyIsSpace c with
  | false => rfl
  | true =>
    rcases wsChars hps with rfl | rfl | rfl | rfl | rfl | rfl <;> simp [digitDotC] at h

theorem litCI_ws_fail (hc : pyIsSpace c = true) (hp : pyIsSpace p = false)
    (hpl : Char.toLower p = p) : (Char.toLower c == Char.toLower p) = false := by
  rw [ws_toLower hc, hpl]
  exact ws_beq_false hc hp

/-- First four characters case-insensitively spell `host` (head test of
the reservation-scanning regex). -/
def ciHostPre : Str → Bool
  | a :: b :: c :: d :: _ =>
    (Char.toLower a == 'h') && (Char.toLower b == 'o') &&
      (Char.toLower c == 's') && (Char.toLower d == 't')
  | _ => false

/-- Some position of `s` case-insensitively spells `host`. -/
def hasHostCI : Str → Bool
  | [] => false
  | c :: t => ciHostPre (c :: t) || hasHostCI t

theorem hasHostCI_cons (h : hasHostCI (c :: t) = false) :
    ciHostPre (c :: t) = false ∧ hasHostCI t = false := by
  simpa [hasHostCI, Bool.or_eq_false_iff] using h

theorem litCIThen_step (h : (Char.toLower c == Char.toLower p) = true)
    (k : Str → Option R) : litCIThen (p :: ps) k (c :: t) = litCIThen ps k t := by
  simp [litCIThen, h]

theorem matchResvAt_fail (h : ciHostPre s = false) : matchResvAt s = none := by
  unfold matchResvAt
  rw [hostData]
  cases s with
  | nil => rfl
  | cons a t1 =>
    cases t1 with
    | nil =>
      cases h1 : (Char.toLower a == Char.toLower 'h') with
      | false => exact litCIThen_fail h1 _
      | true => rw [litCIThen_step h1]; rfl
    | cons b t2 =>
      cases t2 with
      | nil =>
        cases h1 : (Char.toLower a == Char.toLower 'h') with
        | false => exact litCIThen_fail h1 _
        | true =>
          rw [litCIThen_step h1]
          cases h2 : (Char.toLower b == Char.toLower 'o') with
          | false => exact litCIThen_fail h2 _
          | true => rw [litCIThen_step h2]; rfl
      | cons c t3 =>
        cases t3 with
        | nil =>
          cases h1 : (Char.toLower a == Char.toLower 'h') with
          | false => exact litCIThen_fail h1 _
          | true =>
            rw [litCIThen_step h1]
            cases h2 : (Char.toLower b == Char.toLower 'o') with
            | false => exact litCIThen_fail h2 _
            | true =>
              rw [litCIThen_step h2]
              cases h3 : (Char.toLower c == Char.toLower 's') with
              | false => exact litCIThen_fail h3 _
              | true => rw [litCIThen_step h3]; rfl
        | cons d t4 =>
          cases h1 : (Char.toLower a == Char.toLower 'h') with
          | false => exact litCIThen_fail h1 _
          | true =>
            rw [litCIThen_step h1]
            cases h2 : (Char.toLower b == Char.toLower 'o') with
            | false => exact litCIThen_fail h2 _
            | true =>
              rw [litCIThen_step h2]
              cases h3 : (Char.toLower c == Char.toLower 's') with
              | false => exact litCIThen_fail h3 _
              | true =>
                rw [litCIThen_step h3]
                cases h4 : (Char.toLower d == Char.toLower 't') with
                | false => exact litCIThen_fail h4 _
                | true =>
                  exfalso
                  rw [show Char.toLower 'h' = 'h' from by decide] at h1
                  rw [show Char.toLower 'o' = 'o' from by decide] at h2
                  rw [show Char.toLower 's' = 's' from by decide] at h3
                  rw [show Char.toLower 't' = 't' from by decide] at h4
                  have : ciHostPre (a :: b :: c :: d :: t4) = true := by
                    simp [ciHostPre, h1, h2, h3, h4]
                  rw [h] at this
                  simp at this

theorem ciHostPre_concat (hne : pre ≠ []) (hh : hasHostCI pre = false) :
    ciHostPre (pre ++ 'h' :: 'o' :: 's' :: 't' :: w) = false := by
  cases pre with
  | nil => exact absurd rfl hne
  | cons a t1 =>
    cases t1 with
    | nil => simp [ciHostPre, show (Char.toLower 'h' == 'o') = false from by decide]
    | cons b t2 =>
      cases t2 with
      | nil => simp [ciHostPre, show (Char.toLower 'h' == 's') = false from by decide]
      | cons c t3 =>
        cases t3 with
        | nil => simp [ciHostPre, show (Char.toLower 'h' == 't') = false from by decide]
        | cons d t4 =>
          have : ciHostPre (a :: b :: c :: d :: t4) = false := (hasHostCI_cons hh).1
          simpa [ciHostPre] using this

theorem scanFrom_nil : ∀ n, scanFrom n [] = [] := by
  intro n
  cases n <;> rfl

theorem scanFrom_skip (hh : hasHostCI pre = false) :
    ∀ n, scanFrom (pre.length + n) (pre ++ 'h' :: 'o' :: 's' :: 't' :: w) =
      scanFrom n ('h' :: 'o' :: 's' :: 't' :: w) := by
  induction pre with
  | nil => intro n; simp
  | cons a pre' ih =>
    intro n
    have hfail : matchResvAt ((a :: pre') ++ 'h' :: 'o' :: 's' :: 't' :: w) = none :=
      matchResvAt_fail (ciHostPre_concat (by simp) hh)
    have harith : (a :: pre').length + n = (pre'.length + n) + 1 := by
      simp [Nat.add_comm, Nat.add_assoc, Nat.add_left_comm]
    rw [harith]
    show scanFrom ((pre'.length + n) + 1) (a :: (pre' ++ 'h' :: 'o' :: 's' :: 't' :: w)) = _
    rw [show scanFrom ((pre'.length + n) + 1) (a :: (pre' ++ 'h' :: 'o' :: 's' :: 't' :: w)) =
      match matchResvAt (a :: (pre' ++ 'h' :: 'o' :: 's' :: 't' :: w)) with
      | some (tr, rest) => tr :: scanFrom (pre'.length + n) rest
      | none => scanFrom (pre'.length + n) (pre' ++ 'h' :: 'o' :: 's' :: 't' :: w) from rfl]
    rw [show (a :: (pre' ++ 'h' :: 'o' :: 's' :: 't' :: w)) =
      ((a :: pre') ++ 'h' :: 'o' :: 's' :: 't' :: w) from rfl, hfail]
    exact ih (hasHostCI_cons hh).2 n

/-- First four characters spell `host` exactly (head test of the
block-location regex, which is case-sensitive). -/
def csHostPre : Str → Bool
  | a :: b :: c :: d :: _ => (a == 'h') && (b == 'o') && (c == 's') && (d == 't')
  | _ => false

/-- Some position of `s` spells `host` exactly. -/
def hasHostCS : Str → Bool
  | [] => false
  | c :: t => csHostPre (c :: t) || hasHostCS t

theorem hasHostCS_cons (h : hasHostCS (c :: t) = false) :
    csHostPre (c :: t) = false ∧ hasHostCS t = false := by
  simpa [hasHostCS, Bool.or_eq_false_iff] using h

theorem dropPre_step (h : (c == p) = true) : dropPre (p :: ps) (c :: t) = dropPre ps t := by
  simp [dropPre, h]

theorem dropPre_fail (h : (c == p) = false) : dropPre (p :: ps) (c :: t) = none := by
  simp [dropPre, h]

theorem matchHostBlockAt_fail (h : csHostPre s = false) :
    matchHostBlockAt fqdn s = none := by
  unfold matchHostBlockAt
  rw [hostData]
  unfold litThen
  suffices hd : dropPre ('h' :: 'o' :: 's' :: 't' :: []) s = none by rw [hd]
  cases s with
  | nil => rfl
  | cons a t1 =>
    cases h1 : (a == 'h') with
    | false => exact dropPre_fail h1
    | true =>
      rw [dropPre_step h1]
      cases t1 with
      | nil => rfl
      | cons b t2 =>
        cases h2 : (b == 'o') with
        | false => exact dropPre_fail h2
        | true =>
          rw [dropPre_step h2]
          cases t2 with
          | nil => rfl
          | cons c t3 =>
            cases h3 : (c == 's') with
            | false => exact dropPre_fail h3
            | true =>
              rw [dropPre_step h3]
              cases t3 with
              | nil => rfl
              | cons d t4 =>
                cases h4 : (d == 't') with
                | false => exact dropPre_fail h4
                | true =>
                  exfalso
                  have : csHostPre (a :: b :: c :: d :: t4) = true := by
                    simp [csHostPre, h1, h2, h3, h4]
                  rw [h] at this
                  simp at this

theorem csHostPre_concat (hne : pre ≠ []) (hh : hasHostCS pre = false) :
    csHostPre (pre ++ 'h' :: 'o' :: 's' :: 't' :: w) = false := by
  cases pre with
  | nil => exact absurd rfl hne
  | cons a t1 =>
    cases t1 with
    | nil => simp [csHostPre, show ('h' == 'o') = false from by decide]
    | cons b t2 =>
      cases t2 with
      | nil => simp [csHostPre, show ('h' == 's') = false from by decide]
      | cons c t3 =>
        cases t3 with
        | nil => simp [csHostPre, show ('h' == 't') = false from by decide]
        | cons d t4 =>
          have : csHostPre (a :: b :: c :: d :: t4) = false := (hasHostCS_cons hh).1
          simpa [csHostPre] using this

/-- Line-start flag of the scanner after consuming `w`, starting from
flag `ls`: true iff the last consumed character is a newline (or nothing
was consumed and `ls` held). -/
def endFlag : Str → Bool → Bool
  | [], ls => ls
  | c :: t, _ => endFlag t (c == '\n')

theorem endFlag_nl : ∀ b, endFlag (w ++ ['\n']) b = true := by
  induction w with
  | nil => intro b; simp [endFlag]
  | cons a w' ih => intro b; simpa [endFlag] using ih (a == '\n')

theorem frbAux_skip (hh : hasHostCS pre = false) :
    ∀ pos ls, frbAux fqdn (pre ++ 'h' :: 'o' :: 's' :: 't' :: w) pos ls =
      frbAux fqdn ('h' :: 'o' :: 's' :: 't' :: w) (pos + pre.length) (endFlag pre ls) := by
  induction pre with
  | nil => intro pos ls; simp [endFlag]
  | cons a pre' ih =>
    intro pos ls
    have hfail : matchHostBlockAt fqdn ((a :: pre') ++ 'h' :: 'o' :: 's' :: 't' :: w) = none :=
      matchHostBlockAt_fail (csHostPre_concat (by simp) hh)
    have step : frbAux fqdn ((a :: pre') ++ 'h' :: 'o' :: 's' :: 't' :: w) pos ls =
        frbAux fqdn (pre' ++ 'h' :: 'o' :: 's' :: 't' :: w) (pos + 1) (a == '\n') := by
      show frbAux fqdn (a :: (pre' ++ 'h' :: 'o' :: 's' :: 't' :: w)) pos ls = _
      cases ls with
      | false => simp [frbAux]
      | true =>
        simp only [frbAux]
        rw [show (a :: (pre' ++ 'h' :: 'o' :: 's' :: 't' :: w)) =
          ((a :: pre') ++ 'h' :: 'o' :: 's' :: 't' :: w) from rfl, hfail]
        simp
    rw [step, ih (hasHostCS_cons hh).2 (pos + 1) (a == '\n')]
    have : pos + 1 + pre'.length = pos + (a :: pre').length := by
      simp [Nat.add_comm, Nat.add_assoc, Nat.add_left_comm]
    rw [this]
    rfl

theorem headNotWs_cons (h : pyIsSpace c = false) : headNotWs (c :: t) = true := by
  simp [headNotWs, h]

theorem headNotCls_cons {q : Char → Bool} (h : q c = false) :
    headNotCls q (c :: t) = true := by
  simp [headNotCls, h]

theorem headNotWs_append (hn : u ≠ []) (hu : ∀ c ∈ u, pyIsSpace c = false) :
    headNotWs (u ++ v) = true := by
  cases u with
  | nil => exact absurd rfl hn
  | cons c t => exact headNotWs_cons (hu c (by simp))

theorem ws_nonWsC_false (h : pyIsSpace c = true) : nonWsC c = false := by
  simp [nonWsC, h]

theorem ws_hexColon_false (h : pyIsSpace c = true) : hexColonC c = false := by
  rcases wsChars h with rfl | rfl | rfl | rfl | rfl | rfl <;> decide

theorem ws_digitDot_false (h : pyIsSpace c = true) : digitDotC c = false := by
  rcases wsChars h with rfl | rfl | rfl | rfl | rfl | rfl <;> decide

theorem headNotCls_wsThen {q : Char → Bool} (hu : ∀ c ∈ u, pyIsSpace c = true)
    (hq : ∀ c, pyIsSpace c = true → q c = false) (hb : q b = false) :
    headNotCls q (u ++ b :: v) = true := by
  cases u with
  | nil => exact headNotCls_cons hb
  | cons c t => exact headNotCls_cons (hq c (hu c (by simp)))

theorem headNotCls_ws_append (hn : u ≠ []) (hu : ∀ c ∈ u, pyIsSpace c = true) :
    headNotCls nonWsC (u ++ v) = true := by
  cases u with
  | nil => exact absurd rfl hn
  | cons c t => exact headNotCls_cons (ws_nonWsC_false (hu c (by simp)))

theorem wsStar_nonWsHead (h : pyIsSpace c = false) (k : Str → Option R) :
    wsStarThen k (c :: t) = k (c :: t) := by
  simp [wsStarThen, h]

theorem litCI_host_step (k : Str → Option R) (s : Str) :
    litCIThen ('h' :: 'o' :: 's' :: 't' :: []) k ('h' :: 'o' :: 's' :: 't' :: s) = k s :=
  litCIThen_cat _ _ _

theorem litCI_hw_step (k : Str → Option R) (s : Str) :
    litCIThen ('h' :: 'a' :: 'r' :: 'd' :: 'w' :: 'a' :: 'r' :: 'e' :: []) k
      ('h' :: 'a' :: 'r' :: 'd' :: 'w' :: 'a' :: 'r' :: 'e' :: s) = k s :=
  litCIThen_cat _ _ _

theorem litCI_eth_step (k : Str → Option R) (s : Str) :
    litCIThen ('e' :: 't' :: 'h' :: 'e' :: 'r' :: 'n' :: 'e' :: 't' :: []) k
      ('e' :: 't' :: 'h' :: 'e' :: 'r' :: 'n' :: 'e' :: 't' :: s) = k s :=
  litCIThen_cat _ _ _

theorem litCI_fix_step (k : Str → Option R) (s : Str) :
    litCIThen
      ('f' :: 'i' :: 'x' :: 'e' :: 'd' :: '-' :: 'a' :: 'd' :: 'd' :: 'r' :: 'e' :: 's' :: 's' :: []) k
      ('f' :: 'i' :: 'x' :: 'e' :: 'd' :: '-' :: 'a' :: 'd' :: 'd' :: 'r' :: 'e' :: 's' :: 's' :: s) = k s :=
  litCIThen_cat _ _ _

theorem litThen_obr (k : Str → Option R) (s : Str) :
    litThen ('\x7b' :: []) k ('\x7b' :: s) = k s :=
  litThen_cat _ _ _

theorem litThen_semi (k : Str → Option R) (s : Str) :
    litThen (';' :: []) k (';' :: s) = k s :=
  litThen_cat _ _ _

theorem litThen_cbr (k : Str → Option R) (s : Str) :
    litThen ('\x7d' :: []) k ('\x7d' :: s) = k s :=
  litThen_cat _ _ _

/-- Master lemma: the reservation-scanning regex matches, at the head of
the text, any block whose tokens are separated by arbitrary whitespace
(`w1,w3,w4,w6` nonempty for the `\s+` positions, `w2,w5,w7` possibly
empty for the `\s*` positions, whitespace fillers `b1,b2,b3` around the
two inner statements, `b1` or the pre-brace gap `w2` nonempty), with
`hardware ethernet` before `fixed-address`, capturing exactly the name,
the MAC and the IP. -/
theorem matchResv_master
    (hw1 : ∀ c ∈ w1, pyIsSpace c = true) (hw1n : w1 ≠ [])
    (hw2 : ∀ c ∈ w2, pyIsSpace c = true)
    (hw3 : ∀ c ∈ w3, pyIsSpace c = true) (hw3n : w3 ≠ [])
    (hw4 : ∀ c ∈ w4, pyIsSpace c = true) (hw4n : w4 ≠ [])
    (hw5 : ∀ c ∈ w5, pyIsSpace c = true)
    (hw6 : ∀ c ∈ w6, pyIsSpace c = true) (hw6n : w6 ≠ [])
    (hw7 : ∀ c ∈ w7, pyIsSpace c = true)
    (hb1 : ∀ c ∈ b1, pyIsSpace c = true)
    (hb2 : ∀ c ∈ b2, pyIsSpace c = true)
    (hb3 : ∀ c ∈ b3, pyIsSpace c = true)
    (hgap : w2 ≠ [] ∨ b1 ≠ [])
    (hf : ∀ c ∈ f, pyIsSpace c = false) (hfn : f ≠ [])
    (hM : ∀ c ∈ M, hexColonC c = true) (hMn : M ≠ [])
    (hI : ∀ c ∈ I, digitDotC c = true) (hIn : I ≠ []) :
    matchResvAt ("host".data ++ (w1 ++ (f ++ (w2 ++ ('\x7b' ::
      (b1 ++ ("hardware".data ++ (w3 ++ ("ethernet".data ++ (w4 ++ (M ++ (w5 ++ (';' ::
      (b2 ++ ("fixed-address".data ++ (w6 ++ (I ++ (w7 ++ (';' ::
      (b3 ++ ('\x7d' :: rest))))))))))))))))))))) = some ((f, M, I), rest) := by
  have hfC : ∀ c ∈ f, nonWsC c = true := fun c hc => by simp [nonWsC, hf c hc]
  have hMnw : ∀ c ∈ M, pyIsSpace c = false := fun c hc => hexColon_nonWs (hM c hc)
  have hInw : ∀ c ∈ I, pyIsSpace c = false := fun c hc => digitDot_nonWs (hI c hc)
  unfold matchResvAt
  simp only [show ("host".data : Str) = 'h' :: 'o' :: 's' :: 't' :: [] from rfl,
    show ("hardware".data : Str) = 'h' :: 'a' :: 'r' :: 'd' :: 'w' :: 'a' :: 'r' :: 'e' :: []
      from rfl,
    show ("ethernet".data : Str) = 'e' :: 't' :: 'h' :: 'e' :: 'r' :: 'n' :: 'e' :: 't' :: []
      from rfl,
    show ("fixed-address".data : Str) =
      'f' :: 'i' :: 'x' :: 'e' :: 'd' :: '-' :: 'a' :: 'd' :: 'd' :: 'r' :: 'e' :: 's' :: 's' :: []
      from rfl,
    List.cons_append, List.nil_append]
  rw [litCI_host_step]
  refine wsPlus_cat hw1 hw1n (headNotWs_append hfn hf) ?_
  beta_reduce
  cases w2 with
  | cons c2 w2' =>
    refine clsPlus_cat hfC hfn (headNotCls_cons (ws_nonWsC_false (hw2 c2 (by simp)))) ?_
    beta_reduce
    refine wsStar_cat hw2 (headNotWs_cons (by decide)) ?_
    rw [litThen_obr]
    refine lazyNB_skip hb1 (fun c t hc =>
      litCIThen_fail (litCI_ws_fail hc (by decide) (by decide)) _) (lazyNB_hit ?_)
    rw [litCI_hw_step]
    refine wsPlus_cat hw3 hw3n (headNotWs_cons (by decide)) ?_
    beta_reduce
    rw [litCI_eth_step]
    refine wsPlus_cat hw4 hw4n (headNotWs_append hMn hMnw) ?_
    beta_reduce
    refine clsPlus_cat hM hMn (headNotCls_wsThen hw5 (fun c hc => ws_hexColon_false hc)
      (by decide)) ?_
    beta_reduce
    refine wsStar_cat hw5 (headNotWs_cons (by decide)) ?_
    rw [litThen_semi]
    refine lazyNB_skip hb2 (fun c t hc =>
      litCIThen_fail (litCI_ws_fail hc (by decide) (by decide)) _) (lazyNB_hit ?_)
    rw [litCI_fix_step]
    refine wsPlus_cat hw6 hw6n (headNotWs_append hIn hInw) ?_
    beta_reduce
    refine clsPlus_cat hI hIn (headNotCls_wsThen hw7 (fun c hc => ws_digitDot_false hc)
      (by decide)) ?_
    beta_reduce
    refine wsStar_cat hw7 (headNotWs_cons (by decide)) ?_
    rw [litThen_semi]
    refine lazyNB_skip hb3 (fun c t hc =>
      litThen_fail (ws_beq_false hc (by decide)) _) (lazyNB_hit ?_)
    rw [litThen_cbr]
  | nil =>
    have hb1n : b1 ≠ [] := by
      rcases hgap with hgap | hgap
      · exact absurd rfl hgap
      · exact hgap
    simp only [List.nil_append]
    refine clsPlus_back1 hfC hfn (by decide) (headNotCls_ws_append hb1n hb1) ?_ ?_
    · beta_reduce
      refine wsStar_fail hb1 (headNotWs_cons (by decide))
        (fun c t hc => litThen_fail (ws_beq_false hc (by decide)) _)
        (litThen_fail (by decide) _)
    · beta_reduce
      rw [wsStar_nonWsHead (by decide), litThen_obr]
      refine lazyNB_skip hb1 (fun c t hc =>
        litCIThen_fail (litCI_ws_fail hc (by decide) (by decide)) _) (lazyNB_hit ?_)
      rw [litCI_hw_step]
      refine wsPlus_cat hw3 hw3n (headNotWs_cons (by decide)) ?_
      beta_reduce
      rw [litCI_eth_step]
      refine wsPlus_cat hw4 hw4n (headNotWs_append hMn hMnw) ?_
      beta_reduce
      refine clsPlus_cat hM hMn (headNotCls_wsThen hw5 (fun c hc => ws_hexColon_false hc)
        (by decide)) ?_
      beta_reduce
      refine wsStar_cat hw5 (headNotWs_cons (by decide)) ?_
      rw [litThen_semi]
      refine lazyNB_skip hb2 (fun c t hc =>
        litCIThen_fail (litCI_ws_fail hc (by decide) (by decide)) _) (lazyNB_hit ?_)
      rw [litCI_fix_step]
      refine wsPlus_cat hw6 hw6n (headNotWs_append hIn hInw) ?_
      beta_reduce
      refine clsPlus_cat hI hIn (headNotCls_wsThen hw7 (fun c hc => ws_digitDot_false hc)
        (by decide)) ?_
      beta_reduce
      refine wsStar_cat hw7 (headNotWs_cons (by decide)) ?_
      rw [litThen_semi]
      refine lazyNB_skip hb3 (fun c t hc =>
        litThen_fail (ws_beq_false hc (by decide)) _) (lazyNB_hit ?_)
      rw [litThen_cbr]

theorem headNotWs_append2 (hn : u ≠ []) (hu : headNotWs u = true) :
    headNotWs (u ++ v) = true := by
  cases u with
  | nil => exact absurd rfl hn
  | cons c t => simpa [headNotWs] using hu

theorem litThen_host_step (k : Str → Option R) (s : Str) :
    litThen ('h' :: 'o' :: 's' :: 't' :: []) k ('h' :: 'o' :: 's' :: 't' :: s) = k s :=
  litThen_cat _ _ _

theorem litThen_nlcbr_step (k : Str → Option R) (s : Str) :
    litThen ('\n' :: '\x7d' :: '\n' :: []) k ('\n' :: '\x7d' :: '\n' :: s) = k s :=
  litThen_cat _ _ _

theorem lit_nl_fail (hc : (c == '\x7d') = false) (k : Str → Option R) :
    litThen ('\n' :: '\x7d' :: p) k ('\n' :: c :: t) = none := by
  simp [litThen, dropPre, hc]

theorem lazyAny_skipNonNl (hw : ∀ c ∈ w, (c == '\n') = false) (p : Str)
    (k2 : Str → Option R) :
    lazyAnyThen (litThen ('\n' :: p) k2) (w ++ s) =
      lazyAnyThen (litThen ('\n' :: p) k2) s := by
  induction w with
  | nil => rfl
  | cons a w' ih =>
    have ha : (a == '\n') = false := hw a (by simp)
    have hfail : litThen ('\n' :: p) k2 (a :: (w' ++ s)) = none :=
      litThen_fail (by simpa [BEq.comm] using ha) _
    show lazyAnyThen (litThen ('\n' :: p) k2) (a :: (w' ++ s)) = _
    rw [lazyAny_step hfail]
    exact ih (fun c hc => hw c (List.mem_cons_of_mem _ hc))

/-- The block-location regex consumes exactly one freshly built
reservation block (plus its trailing newline) when run at its start,
querying its own FQDN. -/
theorem matchHostBlock_build (hfn : buildFqdn h d ≠ [])
    (hhead : headNotWs (buildFqdn h d) = true)
    (hm : ∀ c ∈ m, (c == '\n') = false) (hi : ∀ c ∈ i, (c == '\n') = false) :
    matchHostBlockAt (buildFqdn h d) (build_reservation_block h m i d ++ r) = some r := by
  unfold matchHostBlockAt build_reservation_block
  simp only [show ("host".data : Str) = 'h' :: 'o' :: 's' :: 't' :: [] from rfl,
    show ("host ".data : Str) = 'h' :: 'o' :: 's' :: 't' :: ' ' :: [] from rfl,
    show (" \x7b\n  hardware ethernet ".data : Str) =
      ' ' :: '\x7b' :: '\n' :: ' ' :: ' ' :: 'h' :: 'a' :: 'r' :: 'd' :: 'w' :: 'a' :: 'r' ::
        'e' :: ' ' :: 'e' :: 't' :: 'h' :: 'e' :: 'r' :: 'n' :: 'e' :: 't' :: ' ' :: []
      from rfl,
    show (";\n  fixed-address ".data : Str) =
      ';' :: '\n' :: ' ' :: ' ' :: 'f' :: 'i' :: 'x' :: 'e' :: 'd' :: '-' :: 'a' :: 'd' ::
        'd' :: 'r' :: 'e' :: 's' :: 's' :: ' ' :: []
      from rfl,
    show (";\n\x7d\n".data : Str) = ';' :: '\n' :: '\x7d' :: '\n' :: [] from rfl,
    List.append_assoc, List.cons_append, List.nil_append, List.append_eq]
  rw [litThen_host_step]
  refine wsPlus_cat (w := [' ']) (by decide) (by decide)
    (headNotWs_append2 hfn hhead) ?_
  simp only [List.append_eq]
  rw [litThen_cat]
  refine wsStar_cat (w := [' ']) (by decide) (headNotWs_cons (by decide)) ?_
  rw [litThen_obr]
  refine Eq.trans (lazyAny_step (lit_nl_fail (by decide) _)) ?_
  refine Eq.trans (lazyAny_skipNonNl
    (w := [' ', ' ', 'h', 'a', 'r', 'd', 'w', 'a', 'r', 'e', ' ',
      'e', 't', 'h', 'e', 'r', 'n', 'e', 't', ' ']) (by decide) _ _) ?_
  refine Eq.trans (lazyAny_skipNonNl hm _ _) ?_
  refine Eq.trans (lazyAny_skipNonNl (w := [';']) (by decide) _ _) ?_
  refine Eq.trans (lazyAny_step (lit_nl_fail (by decide) _)) ?_
  refine Eq.trans (lazyAny_skipNonNl
    (w := [' ', ' ', 'f', 'i', 'x', 'e', 'd', '-', 'a', 'd', 'd', 'r', 'e', 's', 's', ' '])
    (by decide) _ _) ?_
  refine Eq.trans (lazyAny_skipNonNl hi _ _) ?_
  refine Eq.trans (lazyAny_skipNonNl (w := [';']) (by decide) _ _) ?_
  exact lazyAny_hit (litThen_nlcbr_step _ _)

theorem map_id_of_mem {l : List α} (h : ∀ c ∈ l, f c = c) : l.map f = l := by
  induction l with
  | nil => rfl
  | cons a t ih => simp_all

theorem dropWhile_id {l : List α} (h : ∀ c ∈ l, p c = false) : l.dropWhile p = l := by
  cases l with
  | nil => rfl
  | cons a t => simp [List.dropWhile, h a (by simp)]

theorem hexLower_cases (h : hexLower c = true) :
    c = '0' ∨ c = '1' ∨ c = '2' ∨ c = '3' ∨ c = '4' ∨ c = '5' ∨ c = '6' ∨ c = '7' ∨
    c = '8' ∨ c = '9' ∨ c = 'a' ∨ c = 'b' ∨ c = 'c' ∨ c = 'd' ∨ c = 'e' ∨ c = 'f' := by
  have h' := h
  simp [hexLower] at h'
  tauto

theorem macGroups_chars : ∀ n s, macGroups n s = true →
    ∀ c ∈ s, hexLower c = true ∨ c = ':' := by
  intro n
  induction n using Nat.strong_induction_on with
  | _ n ih =>
    intro s hs c hc
    match n, s with
    | 0, s => simp [macGroups] at hs
    | 1, [] => simp [macGroups] at hs
    | 1, [a] => simp [macGroups] at hs
    | 1, a :: b :: x :: t => simp [macGroups] at hs
    | 1, [a, b] =>
      simp [macGroups] at hs
      rcases (by simpa using hc : c = a ∨ c = b) with rfl | rfl
      · exact Or.inl hs.1
      · exact Or.inl hs.2
    | k + 2, [] => simp [macGroups] at hs
    | k + 2, [a] => simp [macGroups] at hs
    | k + 2, [a, b] => simp [macGroups] at hs
    | k + 2, a :: b :: x :: t =>
      simp only [macGroups, Bool.and_eq_true] at hs
      rcases (by simpa using hc : c = a ∨ c = b ∨ c = x ∨ c ∈ t) with rfl | rfl | rfl | hmem
      · exact Or.inl hs.1.1.1
      · exact Or.inl hs.1.1.2
      · exact Or.inr (by simpa using hs.1.2)
      · exact ih (k + 1) (by omega) t hs.2 c hmem

theorem macShape_chars (h : macShape s = true) : ∀ c ∈ s, hexLower c = true ∨ c = ':' :=
  macGroups_chars 6 s h

theorem mac_char_toLower (h : hexLower c = true ∨ c = ':') : Char.toLower c = c := by
  rcases h with h | rfl
  · rcases hexLower_cases h with rfl | rfl | rfl | rfl | rfl | rfl | rfl | rfl | rfl | rfl |
      rfl | rfl | rfl | rfl | rfl | rfl <;> decide
  · decide

theorem mac_char_nonWs (h : hexLower c = true ∨ c = ':') : pyIsSpace c = false := by
  cases hps : pyIsSpace c with
  | false => rfl
  | true =>
    rcases wsChars hps with rfl | rfl | rfl | rfl | rfl | rfl <;>
      rcases h with h | h <;> simp [hexLower] at h ⊢

theorem mac_char_noDash (h : hexLower c = true ∨ c = ':') : (c == '-') = false := by
  cases hb : (c == '-') with
  | false => rfl
  | true =>
    have : c = '-' := by simpa using hb
    subst this
    rcases h with h | h <;> simp [hexLower] at h

theorem mac_char_noNl (h : hexLower c = true ∨ c = ':') : (c == '\n') = false := by
  cases hb : (c == '\n') with
  | false => rfl
  | true =>
    have : c = '\n' := by simpa using hb
    subst this
    rcases h with h | h <;> simp [hexLower] at h

theorem mac_char_hexColon (h : hexLower c = true ∨ c = ':') : hexColonC c = true := by
  rcases h with h | rfl
  · rcases hexLower_cases h with rfl | rfl | rfl | rfl | rfl | rfl | rfl | rfl | rfl | rfl |
      rfl | rfl | rfl | rfl | rfl | rfl <;> decide
  · decide

theorem macShape_ne_nil (h : macShape M = true) : M ≠ [] := by
  intro hM
  rw [hM] at h
  simp [macShape, macGroups] at h

theorem mac_lower_self (h : macShape M = true) : lowerStr M = M :=
  map_id_of_mem (fun c hc => mac_char_toLower (macShape_chars h c hc))

theorem mac_strip_self (h : macShape M = true) : pyStrip M = M := by
  have hnw : ∀ c ∈ M, pyIsSpace c = false :=
    fun c hc => mac_char_nonWs (macShape_chars h c hc)
  unfold pyStrip
  rw [dropWhile_id hnw, dropWhile_id (fun c hc => hnw c (by simpa using hc))]
  simp

theorem norm_mac_self (h : macShape M = true) : normalize_mac M = some M := by
  have dash : dashToColon M = M :=
    map_id_of_mem (fun c hc => by
      simp [mac_char_noDash (macShape_chars h c hc)])
  simp [normalize_mac, mac_strip_self h, mac_lower_self h, dash, h]

theorem scan_nlOnly : ∀ n, scanFrom n ('\n' :: []) = [] := by
  intro n
  cases n with
  | zero => rfl
  | succ k =>
    show (match matchResvAt ('\n' :: []) with
      | some (tr, rest) => tr :: scanFrom k rest
      | none => scanFrom k []) = []
    rw [matchResvAt_fail (by decide)]
    exact scanFrom_nil k

/-- Scanning a text made of a host-free prefix, a whitespace-flexible
reservation block and an arbitrary tail produces the block's triple
first. -/
theorem scan_master
    (hw1 : ∀ c ∈ w1, pyIsSpace c = true) (hw1n : w1 ≠ [])
    (hw2 : ∀ c ∈ w2, pyIsSpace c = true)
    (hw3 : ∀ c ∈ w3, pyIsSpace c = true) (hw3n : w3 ≠ [])
    (hw4 : ∀ c ∈ w4, pyIsSpace c = true) (hw4n : w4 ≠ [])
    (hw5 : ∀ c ∈ w5, pyIsSpace c = true)
    (hw6 : ∀ c ∈ w6, pyIsSpace c = true) (hw6n : w6 ≠ [])
    (hw7 : ∀ c ∈ w7, pyIsSpace c = true)
    (hb1 : ∀ c ∈ b1, pyIsSpace c = true)
    (hb2 : ∀ c ∈ b2, pyIsSpace c = true)
    (hb3 : ∀ c ∈ b3, pyIsSpace c = true)
    (hgap : w2 ≠ [] ∨ b1 ≠ [])
    (hf : ∀ c ∈ f, pyIsSpace c = false) (hfn : f ≠ [])
    (hM : ∀ c ∈ M, hexColonC c = true) (hMn : M ≠ [])
    (hI : ∀ c ∈ I, digitDotC c = true) (hIn : I ≠ [])
    (hh : hasHostCI pre = false)
    (hT : T = w1 ++ (f ++ (w2 ++ ('\x7b' ::
      (b1 ++ ("hardware".data ++ (w3 ++ ("ethernet".data ++ (w4 ++ (M ++ (w5 ++ (';' ::
      (b2 ++ ("fixed-address".data ++ (w6 ++ (I ++ (w7 ++ (';' ::
      (b3 ++ ('\x7d' :: post)))))))))))))))))))) :
    scanFrom ((pre ++ ('h' :: 'o' :: 's' :: 't' :: T)).length)
      (pre ++ ('h' :: 'o' :: 's' :: 't' :: T)) =
    (f, M, I) :: scanFrom (T.length + 3) post := by
  have hm : matchResvAt ('h' :: 'o' :: 's' :: 't' :: T) = some ((f, M, I), post) := by
    rw [hT]
    exact matchResv_master hw1 hw1n hw2 hw3 hw3n hw4 hw4n hw5 hw6 hw6n hw7 hb1 hb2 hb3
      hgap hf hfn hM hMn hI hIn
  have hlen : (pre ++ ('h' :: 'o' :: 's' :: 't' :: T)).length =
      pre.length + (T.length + 4) := by
    simp [List.length_append]
  rw [hlen, scanFrom_skip hh (T.length + 4)]
  show (match matchResvAt ('h' :: 'o' :: 's' :: 't' :: T) with
    | some (tr, rest) => tr :: scanFrom (T.length + 3) rest
    | none => scanFrom (T.length + 3) ('o' :: 's' :: 't' :: T)) = _
  rw [hm]

theorem buildFqdn_chars (hh : ∀ c ∈ h, pyIsSpace c = false)
    (hd : ∀ dd, d = some dd → ∀ c ∈ dd, pyIsSpace c = false) :
    ∀ c ∈ buildFqdn h d, pyIsSpace c = false := by
  intro c hc
  cases d with
  | none => simp only [buildFqdn] at hc; exact hh c hc
  | some dd =>
    simp only [buildFqdn] at hc
    cases hcnd : (!dd.isEmpty) && !(endsWith h ('.' :: dd)) with
    | false =>
      rw [hcnd] at hc
      simp only [Bool.false_eq_true, if_false] at hc
      exact hh c hc
    | true =>
      rw [hcnd] at hc
      simp only [if_true] at hc
      rcases List.mem_append.mp hc with hcm | hcm
      · exact hh c hcm
      · rcases List.mem_cons.mp hcm with rfl | hcm
        · decide
        · exact hd dd rfl c hcm

theorem buildFqdn_ne_nil (hhn : h ≠ []) : buildFqdn h d ≠ [] := by
  cases d with
  | none => simp only [buildFqdn]; exact hhn
  | some dd =>
    simp only [buildFqdn]
    cases hcnd : (!dd.isEmpty) && !(endsWith h ('.' :: dd)) with
    | false => simp only [hcnd, Bool.false_eq_true, if_false]; exact hhn
    | true =>
      simp only [hcnd, if_true]
      cases h with
      | nil => exact absurd rfl hhn
      | cons a t => simp

/-- Amended C5 core: extracting from a freshly serialized block yields
exactly the one triple. -/
theorem extract_build (hh : ∀ c ∈ h, pyIsSpace c = false) (hhn : h ≠ [])
    (hd : ∀ dd, d = some dd → ∀ c ∈ dd, pyIsSpace c = false)
    (hm : macShape m = true)
    (hi : ∀ c ∈ i, digitDotC c = true) (hin : i ≠ []) :
    extract_all_reservations (build_reservation_block h m i d) =
      [(buildFqdn h d, m, i)] := by
  have hfa := buildFqdn_chars hh hd
  have hfn : buildFqdn h d ≠ [] := buildFqdn_ne_nil hhn
  have hMc : ∀ c ∈ m, hexColonC c = true :=
    fun c hc => mac_char_hexColon (macShape_chars hm c hc)
  have hMn := macShape_ne_nil hm
  have hb : build_reservation_block h m i d =
      'h' :: 'o' :: 's' :: 't' :: ([' '] ++ (buildFqdn h d ++ ([' '] ++ ('\x7b' :: (('\n' :: ' ' :: ' ' :: []) ++ ("hardware".data ++ ([' '] ++ ("ethernet".data ++ ([' '] ++ (m ++ (';' :: (('\n' :: ' ' :: ' ' :: []) ++ ("fixed-address".data ++ ([' '] ++ (i ++ (';' :: (['\n'] ++ ('\x7d' :: (['\n']))))))))))))))))))) := by
    simp only [build_reservation_block,
      show ("host ".data : Str) = 'h' :: 'o' :: 's' :: 't' :: ' ' :: [] from rfl,
      show (" \x7b\n  hardware ethernet ".data : Str) =
        ' ' :: '\x7b' :: '\n' :: ' ' :: ' ' :: 'h' :: 'a' :: 'r' :: 'd' :: 'w' :: 'a' :: 'r' ::
          'e' :: ' ' :: 'e' :: 't' :: 'h' :: 'e' :: 'r' :: 'n' :: 'e' :: 't' :: ' ' :: []
        from rfl,
      show (";\n  fixed-address ".data : Str) =
        ';' :: '\n' :: ' ' :: ' ' :: 'f' :: 'i' :: 'x' :: 'e' :: 'd' :: '-' :: 'a' :: 'd' ::
          'd' :: 'r' :: 'e' :: 's' :: 's' :: ' ' :: []
        from rfl,
      show (";\n\x7d\n".data : Str) = ';' :: '\n' :: '\x7d' :: '\n' :: [] from rfl,
      show ("hardware".data : Str) =
        'h' :: 'a' :: 'r' :: 'd' :: 'w' :: 'a' :: 'r' :: 'e' :: [] from rfl,
      show ("ethernet".data : Str) =
        'e' :: 't' :: 'h' :: 'e' :: 'r' :: 'n' :: 'e' :: 't' :: [] from rfl,
      show ("fixed-address".data : Str) =
        'f' :: 'i' :: 'x' :: 'e' :: 'd' :: '-' :: 'a' :: 'd' :: 'd' :: 'r' :: 'e' :: 's' ::
          's' :: [] from rfl,
      List.append_assoc, List.cons_append, List.nil_append, List.append_eq]
  have key : scanFrom ((([] : Str) ++ ('h' :: 'o' :: 's' :: 't' :: ([' '] ++ (buildFqdn h d ++ ([' '] ++ ('\x7b' :: (('\n' :: ' ' :: ' ' :: []) ++ ("hardware".data ++ ([' '] ++ ("ethernet".data ++ ([' '] ++ (m ++ (';' :: (('\n' :: ' ' :: ' ' :: []) ++ ("fixed-address".data ++ ([' '] ++ (i ++ (';' :: (['\n'] ++ ('\x7d' :: (['\n']))))))))))))))))))))).length)
      (([] : Str) ++ ('h' :: 'o' :: 's' :: 't' :: ([' '] ++ (buildFqdn h d ++ ([' '] ++ ('\x7b' :: (('\n' :: ' ' :: ' ' :: []) ++ ("hardware".data ++ ([' '] ++ ("ethernet".data ++ ([' '] ++ (m ++ (';' :: (('\n' :: ' ' :: ' ' :: []) ++ ("fixed-address".data ++ ([' '] ++ (i ++ (';' :: (['\n'] ++ ('\x7d' :: (['\n']))))))))))))))))))))) =
      (buildFqdn h d, m, i) :: scanFrom (([' '] ++ (buildFqdn h d ++ ([' '] ++ ('\x7b' :: (('\n' :: ' ' :: ' ' :: []) ++ ("hardware".data ++ ([' '] ++ ("ethernet".data ++ ([' '] ++ (m ++ (';' :: (('\n' :: ' ' :: ' ' :: []) ++ ("fixed-address".data ++ ([' '] ++ (i ++ (';' :: (['\n'] ++ ('\x7d' :: (['\n']))))))))))))))))))).length + 3) ['\n'] :=
    scan_master
      (show ∀ c ∈ ([' '] : Str), pyIsSpace c = true from by decide)
      (show ([' '] : Str) ≠ [] from by decide)
      (show ∀ c ∈ ([' '] : Str), pyIsSpace c = true from by decide)
      (show ∀ c ∈ ([' '] : Str), pyIsSpace c = true from by decide)
      (show ([' '] : Str) ≠ [] from by decide)
      (show ∀ c ∈ ([' '] : Str), pyIsSpace c = true from by decide)
      (show ([' '] : Str) ≠ [] from by decide)
      (show ∀ c ∈ ([] : Str), pyIsSpace c = true from by decide)
      (show ∀ c ∈ ([' '] : Str), pyIsSpace c = true from by decide)
      (show ([' '] : Str) ≠ [] from by decide)
      (show ∀ c ∈ ([] : Str), pyIsSpace c = true from by decide)
      (show ∀ c ∈ ('\n' :: ' ' :: ' ' :: [] : Str), pyIsSpace c = true from by decide)
      (show ∀ c ∈ ('\n' :: ' ' :: ' ' :: [] : Str), pyIsSpace c = true from by decide)
      (show ∀ c ∈ (['\n'] : Str), pyIsSpace c = true from by decide)
      (Or.inl (show ([' '] : Str) ≠ [] from by decide)) hfa hfn hMc hMn hi hin
      (show hasHostCI ([] : Str) = false from by decide)
      (show ([' '] ++ (buildFqdn h d ++ ([' '] ++ ('\x7b' :: (('\n' :: ' ' :: ' ' :: []) ++ ("hardware".data ++ ([' '] ++ ("ethernet".data ++ ([' '] ++ (m ++ (';' :: (('\n' :: ' ' :: ' ' :: []) ++ ("fixed-address".data ++ ([' '] ++ (i ++ (';' :: (['\n'] ++ ('\x7d' :: (['\n']))))))))))))))))))) =
        ([' '] ++ (buildFqdn h d ++ ([' '] ++ ('\x7b' :: (('\n' :: ' ' :: ' ' :: []) ++ ("hardware".data ++ ([' '] ++ ("ethernet".data ++ ([' '] ++ (m ++ (([] : Str) ++ (';' :: (('\n' :: ' ' :: ' ' :: []) ++ ("fixed-address".data ++ ([' '] ++ (i ++ (([] : Str) ++ (';' :: (['\n'] ++ ('\x7d' :: (['\n']))))))))))))))))))))) from by simp)
  simp only [List.nil_append] at key
  unfold extract_all_reservations
  rw [hb, key, scan_nlOnly]
  simp [mac_lower_self hm]

/-- C5 (amended): for `h` nonempty without whitespace, `m` a normalized
MAC, `i` an IP accepted by `validate_ip_address` made of digits and
dots, and `d` either absent or whitespace-free, extracting from
`build_reservation_block h m i d` yields exactly `[(fqdn, m, i)]` where
`fqdn` is `h` with `.d` appended when `d` is nonempty and `h` does not
already end with `.d`. -/
theorem c5_export_roundtrip (h m i : Str) (d : Option Str)
    (hh : ∀ c ∈ h, pyIsSpace c = false) (hhn : h ≠ [])
    (hd : ∀ dd, d = some dd → ∀ c ∈ dd, pyIsSpace c = false)
    (hm : macShape m = true)
    (hi : ∀ c ∈ i, digitDotC c = true) (hiv : validate_ip_address i = true) :
    extract_all_reservations (build_reservation_block h m i d) =
      [(buildFqdn h d, m, i)] ∧
    (∀ dd, d = some dd → dd ≠ [] →
      buildFqdn h d = if endsWith h ('.' :: dd) = true then h else h ++ '.' :: dd) := by
  have hin : i ≠ [] := by
    intro hnil
    rw [hnil] at hiv
    exact absurd hiv (by decide)
  refine ⟨extract_build hh hhn hd hm hi hin, ?_⟩
  rintro dd rfl hne
  simp only [buildFqdn]
  cases hew : endsWith h ('.' :: dd) with
  | true => simp [hew]
  | false =>
    have : dd.isEmpty = false := by
      cases dd with
      | nil => exact absurd rfl hne
      | cons a t => rfl
    simp [hew, this]

/-- C5 witness: the amended round-trip at a concrete record. -/
theorem c5_export_roundtrip_witness :
    extract_all_reservations (build_reservation_block "a".data
      "aa:bb:cc:dd:ee:ff".data "1.2.3.4".data (some "example.com".data)) =
      [("a.example.com".data, "aa:bb:cc:dd:ee:ff".data, "1.2.3.4".data)] := by
  have h1 := c5_export_roundtrip "a".data "aa:bb:cc:dd:ee:ff".data "1.2.3.4".data
    (some "example.com".data) (by decide) (by decide)
    (by intro dd hdd; cases hdd; decide) (by decide) (by decide) (by decide)
  rw [h1.1]
  decide

/-- C5 counterexample: with the whitespace-bearing domain `e x` the
serialized block is not recognized at all, so the round-trip equation of
the claim fails for this valid triple. -/
theorem c5_counterexample :
    extract_all_reservations (build_reservation_block "a".data "aa:bb:cc:dd:ee:ff".data
      "1.2.3.4".data (some ('e' :: ' ' :: 'x' :: []))) = [] ∧
    ([] : List (Str × Str × Str)) ≠ [(buildFqdn "a".data (some ('e' :: ' ' :: 'x' :: [])),
      "aa:bb:cc:dd:ee:ff".data, "1.2.3.4".data)] := by
  constructor
  · decide
  · decide

/-- C3 (amended): recognition of a reservation block is independent of
the whitespace layout around its tokens, but requires the
`hardware ethernet` statement before the `fixed-address` statement.
For a text made of a host-free prefix, such a block (name `f`,
normalized MAC `M`, digit-and-dot IP `I`) and an arbitrary tail,
`extract_all_reservations` lists `(f, M, I)` and
`find_reservation_by_mac` queried with `M` returns it. -/
theorem c3_block_recognition
    (hw1 : ∀ c ∈ w1, pyIsSpace c = true) (hw1n : w1 ≠ [])
    (hw2 : ∀ c ∈ w2, pyIsSpace c = true)
    (hw3 : ∀ c ∈ w3, pyIsSpace c = true) (hw3n : w3 ≠ [])
    (hw4 : ∀ c ∈ w4, pyIsSpace c = true) (hw4n : w4 ≠ [])
    (hw5 : ∀ c ∈ w5, pyIsSpace c = true)
    (hw6 : ∀ c ∈ w6, pyIsSpace c = true) (hw6n : w6 ≠ [])
    (hw7 : ∀ c ∈ w7, pyIsSpace c = true)
    (hb1 : ∀ c ∈ b1, pyIsSpace c = true)
    (hb2 : ∀ c ∈ b2, pyIsSpace c = true)
    (hb3 : ∀ c ∈ b3, pyIsSpace c = true)
    (hgap : w2 ≠ [] ∨ b1 ≠ [])
    (hf : ∀ c ∈ f, pyIsSpace c = false) (hfn : f ≠ [])
    (hmac : macShape M = true)
    (hI : ∀ c ∈ I, digitDotC c = true) (hIn : I ≠ [])
    (hh : hasHostCI pre = false)
    (hT : T = w1 ++ (f ++ (w2 ++ ('\x7b' ::
      (b1 ++ ("hardware".data ++ (w3 ++ ("ethernet".data ++ (w4 ++ (M ++ (w5 ++ (';' ::
      (b2 ++ ("fixed-address".data ++ (w6 ++ (I ++ (w7 ++ (';' ::
      (b3 ++ ('\x7d' :: post)))))))))))))))))))) :
    (f, M, I) ∈ extract_all_reservations (pre ++ ('h' :: 'o' :: 's' :: 't' :: T)) ∧
    find_reservation_by_mac (pre ++ ('h' :: 'o' :: 's' :: 't' :: T)) M =
      some (f, M, I) := by
  have hMc : ∀ c ∈ M, hexColonC c = true :=
    fun c hc => mac_char_hexColon (macShape_chars hmac c hc)
  have hMn := macShape_ne_nil hmac
  have key := scan_master hw1 hw1n hw2 hw3 hw3n hw4 hw4n hw5 hw6 hw6n hw7 hb1 hb2 hb3
    hgap hf hfn hMc hMn hI hIn hh hT
  constructor
  · unfold extract_all_reservations
    rw [key]
    exact List.mem_map.mpr ⟨(f, M, I), by simp, by simp [mac_lower_self hmac]⟩
  · unfold find_reservation_by_mac
    rw [norm_mac_self hmac, key]
    show firstByMac M ((f, M, I) :: _) = some (f, M, I)
    simp [firstByMac, mac_lower_self hmac]

/-- C3 counterexample: a block whose braces enclose both inner
statements with `fixed-address` first is not recognized at all — the
scan yields nothing and the MAC probe returns `none`, although the text
consists of exactly one `host` block binding that MAC. -/
theorem c3_counterexample :
    extract_all_reservations
      "host a \x7b\n  fixed-address 10.0.0.1;\n  hardware ethernet aa:bb:cc:dd:ee:ff;\n\x7d\n".data
      = [] ∧
    find_reservation_by_mac
      "host a \x7b\n  fixed-address 10.0.0.1;\n  hardware ethernet aa:bb:cc:dd:ee:ff;\n\x7d\n".data
      "aa:bb:cc:dd:ee:ff".data = none := by
  constructor
  · decide
  · decide

/-- C3 witness: the amended recognition statement at a concrete block
with tab/space indentation and a host-free prefix. -/
theorem c3_block_recognition_witness :
    ("a.b".data, "aa:bb:cc:dd:ee:ff".data, "10.0.0.1".data) ∈
      extract_all_reservations ("x\n".data ++ ('h' :: 'o' :: 's' :: 't' :: ([' '] ++ ("a.b".data ++ (['\t'] ++ ('\x7b' :: (('\n' :: ' ' :: []) ++ ("hardware".data ++ (('\t' :: ' ' :: []) ++ ("ethernet".data ++ ([' '] ++ ("aa:bb:cc:dd:ee:ff".data ++ ([' '] ++ (';' :: (('\n' :: ' ' :: []) ++ ("fixed-address".data ++ ((' ' :: ' ' :: []) ++ ("10.0.0.1".data ++ (['\t'] ++ (';' :: (('\n' :: ' ' :: []) ++ ('\x7d' :: ("\nrest".data))))))))))))))))))))))) ∧
    find_reservation_by_mac ("x\n".data ++ ('h' :: 'o' :: 's' :: 't' :: ([' '] ++ ("a.b".data ++ (['\t'] ++ ('\x7b' :: (('\n' :: ' ' :: []) ++ ("hardware".data ++ (('\t' :: ' ' :: []) ++ ("ethernet".data ++ ([' '] ++ ("aa:bb:cc:dd:ee:ff".data ++ ([' '] ++ (';' :: (('\n' :: ' ' :: []) ++ ("fixed-address".data ++ ((' ' :: ' ' :: []) ++ ("10.0.0.1".data ++ (['\t'] ++ (';' :: (('\n' :: ' ' :: []) ++ ('\x7d' :: ("\nrest".data)))))))))))))))))))))))
      "aa:bb:cc:dd:ee:ff".data =
      some ("a.b".data, "aa:bb:cc:dd:ee:ff".data, "10.0.0.1".data) :=
  c3_block_recognition (by decide) (by decide) (by decide) (by decide) (by decide)
    (by decide) (by decide) (by decide) (by decide) (by decide) (by decide) (by decide)
    (by decide) (by decide) (Or.inl (by decide)) (by decide) (by decide) (by decide)
    (by decide) (by decide) (by decide) rfl

theorem digitDot_noNl (h : digitDotC c = true) : (c == '\n') = false := by
  cases hb : (c == '\n') with
  | false => rfl
  | true =>
    have : c = '\n' := by simpa using hb
    subst this
    simp [digitDotC] at h

theorem buildFqdn_headNotWs (hhn : h ≠ []) (hw : headNotWs h = true) :
    headNotWs (buildFqdn h d) = true := by
  cases d with
  | none => simpa [buildFqdn] using hw
  | some dd =>
    simp only [buildFqdn]
    cases hcnd : (!dd.isEmpty) && !(endsWith h ('.' :: dd)) with
    | false => simpa [hcnd] using hw
    | true =>
      simp only [hcnd, if_true]
      exact headNotWs_append2 hhn hw

theorem getLast_split (hb : l.getLast? = some a) : ∃ t, l = t ++ [a] := by
  cases l with
  | nil => simp at hb
  | cons c t =>
    refine ⟨(c :: t).dropLast, ?_⟩
    have hne : c :: t ≠ [] := by simp
    have := List.dropLast_append_getLast hne
    rw [List.getLast?_eq_getLast (c :: t) hne] at hb
    obtain rfl : (c :: t).getLast hne = a := Option.some_inj.mp hb
    exact this.symm

/-- C6 (amended): appending a freshly built block to a base text that is
empty or newline-terminated and contains no occurrence of `host` makes
`find_reservation_block`, queried with the block's FQDN, return exactly
the appended span: from the start of the appended `host` line to just
past the closing brace's line terminator. -/
theorem c6_find_appended (base h m i : Str) (d : Option Str)
    (hbase : base = [] ∨ base.getLast? = some '\n')
    (hhost : hasHostCS base = false)
    (hh : ∀ c ∈ h, pyIsSpace c = false) (hhn : h ≠ [])
    (hmac : macShape m = true)
    (hi : ∀ c ∈ i, digitDotC c = true) :
    find_reservation_block (base ++ build_reservation_block h m i d) (buildFqdn h d) =
      some (base.length, base.length + (build_reservation_block h m i d).length) := by
  have hmNl : ∀ c ∈ m, (c == '\n') = false :=
    fun c hc => mac_char_noNl (macShape_chars hmac c hc)
  have hiNl : ∀ c ∈ i, (c == '\n') = false := fun c hc => digitDot_noNl (hi c hc)
  have hfn : buildFqdn h d ≠ [] := buildFqdn_ne_nil hhn
  have hhead : headNotWs (buildFqdn h d) = true := by
    cases h with
    | nil => exact absurd rfl hhn
    | cons a t => exact buildFqdn_headNotWs hhn (headNotWs_cons (hh a (by simp)))
  have hmatch : matchHostBlockAt (buildFqdn h d) (build_reservation_block h m i d) =
      some [] := by
    have := matchHostBlock_build (r := ([] : Str)) hfn hhead hmNl hiNl
    simpa using this
  have hexp : build_reservation_block h m i d =
      'h' :: 'o' :: 's' :: 't' :: (' ' :: (buildFqdn h d ++ ((' ' :: '\x7b' :: '\n' :: ' ' :: ' ' :: 'h' :: 'a' :: 'r' :: 'd' :: 'w' :: 'a' :: 'r' :: 'e' :: ' ' :: 'e' :: 't' :: 'h' :: 'e' :: 'r' :: 'n' :: 'e' :: 't' :: ' ' :: []) ++ (m ++ ((';' :: '\n' :: ' ' :: ' ' :: 'f' :: 'i' :: 'x' :: 'e' :: 'd' :: '-' :: 'a' :: 'd' :: 'd' :: 'r' :: 'e' :: 's' :: 's' :: ' ' :: []) ++ (i ++ (';' :: '\n' :: '\x7d' :: '\n' :: []))))))) := by
    simp only [build_reservation_block,
      show ("host ".data : Str) = 'h' :: 'o' :: 's' :: 't' :: ' ' :: [] from rfl,
      show (" \x7b\n  hardware ethernet ".data : Str) = ' ' :: '\x7b' :: '\n' :: ' ' :: ' ' :: 'h' :: 'a' :: 'r' :: 'd' :: 'w' :: 'a' :: 'r' :: 'e' :: ' ' :: 'e' :: 't' :: 'h' :: 'e' :: 'r' :: 'n' :: 'e' :: 't' :: ' ' :: [] from rfl,
      show (";\n  fixed-address ".data : Str) = ';' :: '\n' :: ' ' :: ' ' :: 'f' :: 'i' :: 'x' :: 'e' :: 'd' :: '-' :: 'a' :: 'd' :: 'd' :: 'r' :: 'e' :: 's' :: 's' :: ' ' :: [] from rfl,
      show (";\n\x7d\n".data : Str) = ';' :: '\n' :: '\x7d' :: '\n' :: [] from rfl,
      List.append_assoc, List.cons_append, List.nil_append, List.append_eq]
  have hflag : endFlag base true = true := by
    rcases hbase with rfl | hlast
    · rfl
    · obtain ⟨t, rfl⟩ := getLast_split hlast
      exact endFlag_nl true
  rw [hexp] at hmatch
  unfold find_reservation_block
  rw [hexp]
  rw [frbAux_skip hhost 0 true, hflag]
  show (match (matchHostBlockAt (buildFqdn h d)
      ('h' :: 'o' :: 's' :: 't' :: (' ' :: (buildFqdn h d ++ ((' ' :: '\x7b' :: '\n' :: ' ' :: ' ' :: 'h' :: 'a' :: 'r' :: 'd' :: 'w' :: 'a' :: 'r' :: 'e' :: ' ' :: 'e' :: 't' :: 'h' :: 'e' :: 'r' :: 'n' :: 'e' :: 't' :: ' ' :: []) ++ (m ++ ((';' :: '\n' :: ' ' :: ' ' :: 'f' :: 'i' :: 'x' :: 'e' :: 'd' :: '-' :: 'a' :: 'd' :: 'd' :: 'r' :: 'e' :: 's' :: 's' :: ' ' :: []) ++ (i ++ (';' :: '\n' :: '\x7d' :: '\n' :: []))))))))) with
    | some rest => some (0 + base.length,
        0 + base.length + (('h' :: 'o' :: 's' :: 't' :: (' ' :: (buildFqdn h d ++ ((' ' :: '\x7b' :: '\n' :: ' ' :: ' ' :: 'h' :: 'a' :: 'r' :: 'd' :: 'w' :: 'a' :: 'r' :: 'e' :: ' ' :: 'e' :: 't' :: 'h' :: 'e' :: 'r' :: 'n' :: 'e' :: 't' :: ' ' :: []) ++ (m ++ ((';' :: '\n' :: ' ' :: ' ' :: 'f' :: 'i' :: 'x' :: 'e' :: 'd' :: '-' :: 'a' :: 'd' :: 'd' :: 'r' :: 'e' :: 's' :: 's' :: ' ' :: []) ++ (i ++ (';' :: '\n' :: '\x7d' :: '\n' :: [])))))))).length - rest.length))
    | none => frbAux (buildFqdn h d) ('o' :: 's' :: 't' :: (' ' :: (buildFqdn h d ++ ((' ' :: '\x7b' :: '\n' :: ' ' :: ' ' :: 'h' :: 'a' :: 'r' :: 'd' :: 'w' :: 'a' :: 'r' :: 'e' :: ' ' :: 'e' :: 't' :: 'h' :: 'e' :: 'r' :: 'n' :: 'e' :: 't' :: ' ' :: []) ++ (m ++ ((';' :: '\n' :: ' ' :: ' ' :: 'f' :: 'i' :: 'x' :: 'e' :: 'd' :: '-' :: 'a' :: 'd' :: 'd' :: 'r' :: 'e' :: 's' :: 's' :: ' ' :: []) ++ (i ++ (';' :: '\n' :: '\x7d' :: '\n' :: []))))))))
        (0 + base.length + 1) false) = _
  rw [hmatch]
  have hlen : ('h' :: 'o' :: 's' :: 't' :: (' ' :: (buildFqdn h d ++ ((' ' :: '\x7b' :: '\n' :: ' ' :: ' ' :: 'h' :: 'a' :: 'r' :: 'd' :: 'w' :: 'a' :: 'r' :: 'e' :: ' ' :: 'e' :: 't' :: 'h' :: 'e' :: 'r' :: 'n' :: 'e' :: 't' :: ' ' :: []) ++ (m ++ ((';' :: '\n' :: ' ' :: ' ' :: 'f' :: 'i' :: 'x' :: 'e' :: 'd' :: '-' :: 'a' :: 'd' :: 'd' :: 'r' :: 'e' :: 's' :: 's' :: ' ' :: []) ++ (i ++ (';' :: '\n' :: '\x7d' :: '\n' :: [])))))))).length =
      (build_reservation_block h m i d).length := by rw [hexp]
  simp [hlen]

/-- C6 witness: the amended locate-appended-span statement at a concrete
base and record. -/
theorem c6_find_appended_witness :
    find_reservation_block ("x\n".data ++ build_reservation_block "b".data
        "aa:bb:cc:dd:ee:ff".data "1.2.3.4".data none) (buildFqdn "b".data none) =
      some (("x\n".data : Str).length, ("x\n".data : Str).length +
        (build_reservation_block "b".data "aa:bb:cc:dd:ee:ff".data "1.2.3.4".data
          none).length) :=
  c6_find_appended "x\n".data "b".data "aa:bb:cc:dd:ee:ff".data "1.2.3.4".data none
    (Or.inr (by decide)) (by decide) (by decide) (by decide) (by decide) (by decide)

/-- C6 counterexample: a newline-terminated base holding an unclosed
`host b \x7b` line contains no block for `b` (the lookup on the base alone
returns the not-found sentinel), yet after appending the built block the
lookup returns a span starting at index 0 — inside the base — rather
than the appended span. -/
theorem c6_counterexample :
    find_reservation_block "host b \x7b\n".data (buildFqdn "b".data none) = none ∧
    ("host b \x7b\n".data : Str).getLast? = some '\n' ∧
    find_reservation_block ("host b \x7b\n".data ++ build_reservation_block "b".data
        "aa:bb:cc:dd:ee:ff".data "1.2.3.4".data none) (buildFqdn "b".data none) =
      some (0, ("host b \x7b\n".data ++ build_reservation_block "b".data
        "aa:bb:cc:dd:ee:ff".data "1.2.3.4".data none).length) ∧
    (0 : Nat) ≠ ("host b \x7b\n".data : Str).length := by
  refine ⟨by decide, by decide, by decide, by decide⟩

/-- C7: removing a host with no block in the text returns the text
byte-identical together with the `False` not-found flag (no error
channel is involved). -/
theorem c7_remove_absent (content hostname : Str) (domain : Option Str)
    (habs : find_reservation_block content (buildFqdn hostname domain) = none) :
    remove_reservation content hostname domain = (content, false) := by
  simp [remove_reservation, habs]

/-- C7 witness: removal from a concrete text without the host. -/
theorem c7_remove_absent_witness :
    find_reservation_block "x\n".data (buildFqdn "a".data none) = none ∧
    remove_reservation "x\n".data "a".data none = ("x\n".data, false) :=
  ⟨by decide, c7_remove_absent "x\n".data "a".data none (by decide)⟩

/-- C2: when the MAC probe finds the query MAC bound to a different
FQDN, a non-interactive add returns the text unchanged with
`changed = False` and the conflict error, and the record loop counts the
record as failed. -/
theorem c2_conflict_noninteractive (content h m ip2 : Str) (domain : Option Str)
    (ans : Bool) (A em eip : Str)
    (hfind : find_reservation_by_mac content m = some (A, em, eip))
    (hne : A ≠ buildFqdn h domain) :
    add_reservation content h m ip2 domain false ans =
      (content, false, some (conflictMsg m A)) ∧
    (processRecords content [(h, m, ip2, ans)] domain false).2.2 = 1 := by
  have hbeq : (A == buildFqdn h domain) = false := by
    simpa [beq_eq_false_iff_ne] using hne
  constructor
  · simp [add_reservation, hfind, hbeq]
  · simp [processRecords, recStep, add_reservation, hfind, hbeq]

/-- C2 witness: the spec's conflict scenario, non-interactively. -/
theorem c2_conflict_witness :
    add_reservation
      "host a.example.com \x7b hardware ethernet aa:bb:cc:dd:ee:ff; fixed-address 10.0.0.1; \x7d".data
      "b".data "aa:bb:cc:dd:ee:ff".data "10.0.0.2".data none false false =
      ("host a.example.com \x7b hardware ethernet aa:bb:cc:dd:ee:ff; fixed-address 10.0.0.1; \x7d".data,
        false, some (conflictMsg "aa:bb:cc:dd:ee:ff".data "a.example.com".data)) :=
  (c2_conflict_noninteractive
    "host a.example.com \x7b hardware ethernet aa:bb:cc:dd:ee:ff; fixed-address 10.0.0.1; \x7d".data
    "b".data "aa:bb:cc:dd:ee:ff".data "10.0.0.2".data none false
    "a.example.com".data "aa:bb:cc:dd:ee:ff".data "10.0.0.1".data
    (by decide) (by decide)).1

/-- C10 (amended): on an accepted interactive conflict resolution,
`add_reservation` looks the old block up under the first dot-label of
the existing name joined with the configured domain; whenever that
lookup finds no block, it returns the
`Failed to remove conflicting reservation` error with the text
unchanged.  (If the lookup happens to find some other block under the
recomputed name, that block is removed instead — see the
counterexample.) -/
theorem c10_conflict_removal (content h m i : Str) (domain : Option Str)
    (A em eip : Str)
    (hfind : find_reservation_by_mac content m = some (A, em, eip))
    (hne : A ≠ buildFqdn h domain)
    (hrm : find_reservation_block content
      (buildFqdn ((splitOnDot A).headD []) domain) = none) :
    add_reservation content h m i domain true true =
      (content, false, some (remFailMsg A)) := by
  have hbeq : (A == buildFqdn h domain) = false := by
    simpa [beq_eq_false_iff_ne] using hne
  have hrm' : find_reservation_block content
      (buildFqdn ((splitOnDot A).head?.getD []) domain) = none := by
    simpa using hrm
  simp [add_reservation, hfind, hbeq, remove_reservation, hrm']

/-- C10 witness: a single conflicting block whose name carries another
domain; the recomputed-name lookup finds nothing and the add fails with
the removal error, leaving the text unchanged. -/
theorem c10_conflict_removal_witness :
    add_reservation
      (build_reservation_block "a.other.com".data "aa:bb:cc:dd:ee:01".data
        "10.0.0.1".data none)
      "b".data "aa:bb:cc:dd:ee:01".data "10.0.0.3".data (some "example.com".data)
      true true =
      (build_reservation_block "a.other.com".data "aa:bb:cc:dd:ee:01".data
        "10.0.0.1".data none,
        false, some (remFailMsg "a.other.com".data)) :=
  c10_conflict_removal
    (build_reservation_block "a.other.com".data "aa:bb:cc:dd:ee:01".data
      "10.0.0.1".data none)
    "b".data "aa:bb:cc:dd:ee:01".data "10.0.0.3".data (some "example.com".data)
    "a.other.com".data "aa:bb:cc:dd:ee:01".data "10.0.0.1".data
    (by decide) (by decide) (by decide)

set_option maxRecDepth 8192 in
/-- C10 counterexample: with a second, unrelated block that happens to
carry the recomputed name `a.example.com`, the existing conflicting
block's name still differs from the recomputed name, yet the removal
finds (and removes) the unrelated block: the add reports no error and
the returned text differs from the input, contradicting the claim. -/
theorem c10_counterexample :
    (find_reservation_by_mac
      (build_reservation_block "a.other.com".data "aa:bb:cc:dd:ee:01".data
          "10.0.0.1".data none ++
        build_reservation_block "a.example.com".data "aa:bb:cc:dd:ee:02".data
          "10.0.0.2".data none)
      "aa:bb:cc:dd:ee:01".data =
      some ("a.other.com".data, "aa:bb:cc:dd:ee:01".data, "10.0.0.1".data)) ∧
    "a.other.com".data ≠ buildFqdn "b".data (some "example.com".data) ∧
    "a.other.com".data ≠
      buildFqdn ((splitOnDot "a.other.com".data).headD []) (some "example.com".data) ∧
    (add_reservation
      (build_reservation_block "a.other.com".data "aa:bb:cc:dd:ee:01".data
          "10.0.0.1".data none ++
        build_reservation_block "a.example.com".data "aa:bb:cc:dd:ee:02".data
          "10.0.0.2".data none)
      "b".data "aa:bb:cc:dd:ee:01".data "10.0.0.3".data (some "example.com".data)
      true true).2.2 = none ∧
    (add_reservation
      (build_reservation_block "a.other.com".data "aa:bb:cc:dd:ee:01".data
          "10.0.0.1".data none ++
        build_reservation_block "a.example.com".data "aa:bb:cc:dd:ee:02".data
          "10.0.0.2".data none)
      "b".data "aa:bb:cc:dd:ee:01".data "10.0.0.3".data (some "example.com".data)
      true true).1 ≠
      (build_reservation_block "a.other.com".data "aa:bb:cc:dd:ee:01".data
          "10.0.0.1".data none ++
        build_reservation_block "a.example.com".data "aa:bb:cc:dd:ee:02".data
          "10.0.0.2".data none) := by
  refine ⟨by decide, by decide, by decide, by decide, by decide⟩

/-- C4 (amended): adding a record twice is idempotent provided the MAC
is not yet bound in the text, no block exists for the target FQDN, and
the MAC probe on the once-extended text locates the newly appended
block: the first application appends and reports `changed = True` with
no error, the second reports `changed = False` with no error and leaves
the text byte-identical. -/
theorem c4_idempotent_add (content h m i : Str) (domain : Option Str)
    (inter ans : Bool) (mm : Str)
    (hmac : find_reservation_by_mac content m = none)
    (hblk : find_reservation_block content (buildFqdn h domain) = none)
    (hsecond : find_reservation_by_mac
      (add_reservation content h m i domain inter ans).1 m =
      some (buildFqdn h domain, mm, i)) :
    (add_reservation content h m i domain inter ans).2.1 = true ∧
    (add_reservation content h m i domain inter ans).2.2 = none ∧
    add_reservation (add_reservation content h m i domain inter ans).1 h m i domain
        inter ans =
      ((add_reservation content h m i domain inter ans).1, false, none) := by
  have hfirst : (add_reservation content h m i domain inter ans).2.1 = true ∧
      (add_reservation content h m i domain inter ans).2.2 = none := by
    constructor <;> simp [add_reservation, hmac, applyAdd, hblk]
  refine ⟨hfirst.1, hfirst.2, ?_⟩
  set c1 := (add_reservation content h m i domain inter ans).1 with hc1
  simp [add_reservation, hsecond]

/-- C4 witness: the amended double-add statement on the empty
configuration. -/
theorem c4_idempotent_add_witness :
    (add_reservation [] "b".data "aa:bb:cc:dd:ee:ff".data "1.2.3.4".data none
      false false).2.1 = true ∧
    (add_reservation [] "b".data "aa:bb:cc:dd:ee:ff".data "1.2.3.4".data none
      false false).2.2 = none ∧
    add_reservation (add_reservation [] "b".data "aa:bb:cc:dd:ee:ff".data
        "1.2.3.4".data none false false).1
      "b".data "aa:bb:cc:dd:ee:ff".data "1.2.3.4".data none false false =
      ((add_reservation [] "b".data "aa:bb:cc:dd:ee:ff".data "1.2.3.4".data none
        false false).1, false, none) :=
  c4_idempotent_add [] "b".data "aa:bb:cc:dd:ee:ff".data "1.2.3.4".data none
    false false "aa:bb:cc:dd:ee:ff".data (by decide) (by decide) (by decide)

/-- C4 counterexample: on a configuration already holding exactly this
record — a valid configuration text and valid record, as quantified by
the claim — the first application reports `changed = False`, not
`True`. -/
theorem c4_counterexample :
    normalize_mac "aa:bb:cc:dd:ee:ff".data = some "aa:bb:cc:dd:ee:ff".data ∧
    validate_ip_address "1.2.3.4".data = true ∧
    (add_reservation
      (build_reservation_block "b".data "aa:bb:cc:dd:ee:ff".data "1.2.3.4".data none)
      "b".data "aa:bb:cc:dd:ee:ff".data "1.2.3.4".data none false false).2.1 =
      false := by
  refine ⟨by decide, by decide, by decide⟩

/-- C1: with validation enabled, a passing pre-check and a failing
post-mutation check, the run with backup restores the pre-run content
and exits 1; the run without backup leaves the freshly written (invalid)
buffer on disk and still exits 1. -/
theorem c1_rollback (disk : Str) (recs : List (Str × Str × Str × Bool))
    (domain : Option Str) (interactive : Bool) (oracle : Str → Bool)
    (hpre : oracle disk = true)
    (hpost : oracle (processRecords disk recs domain interactive).1 = false) :
    mainAdd disk recs domain interactive false false oracle = (disk, 1) ∧
    mainAdd disk recs domain interactive true false oracle =
      ((processRecords disk recs domain interactive).1, 1) := by
  constructor <;> simp [mainAdd, hpre, hpost]

/-- C1 witness: one appended record on an empty file with an oracle
accepting only the empty content. -/
theorem c1_rollback_witness :
    mainAdd [] [("b".data, "aa:bb:cc:dd:ee:ff".data, "1.2.3.4".data, true)] none
      false false false (fun s => s.isEmpty) = ([], 1) ∧
    mainAdd [] [("b".data, "aa:bb:cc:dd:ee:ff".data, "1.2.3.4".data, true)] none
      false true false (fun s => s.isEmpty) =
      ((processRecords [] [("b".data, "aa:bb:cc:dd:ee:ff".data, "1.2.3.4".data, true)]
        none false).1, 1) :=
  c1_rollback [] [("b".data, "aa:bb:cc:dd:ee:ff".data, "1.2.3.4".data, true)] none
    false (fun s => s.isEmpty) (by decide) (by decide)

theorem recStep_shift (d : Option Str) (ib : Bool) (c : Str) (a b : Nat)
    (r : Str × Str × Str × Bool) :
    recStep d ib (c, a, b) r =
      ((recStep d ib (c, 0, 0) r).1, a + (recStep d ib (c, 0, 0) r).2.1,
        b + (recStep d ib (c, 0, 0) r).2.2) := by
  unfold recStep
  cases he : (add_reservation c r.1 r.2.1 r.2.2.1 d ib r.2.2.2).2.2.isSome <;> simp [he]

theorem processRecords_shift (d : Option Str) (ib : Bool) :
    ∀ (recs : List (Str × Str × Str × Bool)) (c : Str) (a b : Nat),
      recs.foldl (recStep d ib) (c, a, b) =
        ((processRecords c recs d ib).1, a + (processRecords c recs d ib).2.1,
          b + (processRecords c recs d ib).2.2) := by
  intro recs
  induction recs with
  | nil => intro c a b; simp [processRecords]
  | cons r rs ih =>
    intro c a b
    show List.foldl (recStep d ib) (recStep d ib (c, a, b) r) rs = _
    rw [recStep_shift]
    rw [ih]
    have hR : processRecords c (r :: rs) d ib =
        List.foldl (recStep d ib) (recStep d ib (c, 0, 0) r) rs := rfl
    rw [hR]
    rw [show recStep d ib (c, 0, 0) r = ((recStep d ib (c, 0, 0) r).1,
      (recStep d ib (c, 0, 0) r).2.1, (recStep d ib (c, 0, 0) r).2.2) from rfl]
    rw [ih]
    simp [Nat.add_assoc]

/-- C8: a record's outcome never aborts the batch — processing a batch
decomposes as one record step followed by processing of the remaining
records against the evolving buffer, with outcome counters accumulated
independently — and the exit code is 0 iff the pre-check passes (or is
skipped), every record succeeded, and the post-check passes (or is
skipped), else 1. -/
theorem c8_batch_independence (disk : Str) (r : Str × Str × Str × Bool)
    (recs : List (Str × Str × Str × Bool)) (domain : Option Str)
    (interactive noBackup skipValidation : Bool) (oracle : Str → Bool) :
    (processRecords disk (r :: recs) domain interactive =
      ((processRecords (recStep domain interactive (disk, 0, 0) r).1 recs domain
          interactive).1,
        (recStep domain interactive (disk, 0, 0) r).2.1 +
          (processRecords (recStep domain interactive (disk, 0, 0) r).1 recs domain
            interactive).2.1,
        (recStep domain interactive (disk, 0, 0) r).2.2 +
          (processRecords (recStep domain interactive (disk, 0, 0) r).1 recs domain
            interactive).2.2)) ∧
    ((mainAdd disk recs domain interactive noBackup skipValidation oracle).2 = 0 ↔
      ((skipValidation || oracle disk) = true ∧
        (skipValidation || oracle (processRecords disk recs domain interactive).1) = true ∧
        (processRecords disk recs domain interactive).2.2 = 0)) := by
  constructor
  · show List.foldl (recStep domain interactive)
      (recStep domain interactive (disk, 0, 0) r) recs = _
    rw [show recStep domain interactive (disk, 0, 0) r =
      ((recStep domain interactive (disk, 0, 0) r).1,
        (recStep domain interactive (disk, 0, 0) r).2.1,
        (recStep domain interactive (disk, 0, 0) r).2.2) from rfl]
    rw [processRecords_shift]
  · cases hsv : skipValidation with
    | true =>
      simp only [mainAdd, hsv, Bool.not_true, Bool.false_and, Bool.true_or,
        Bool.false_eq_true, if_false]
      cases hz : (processRecords disk recs domain interactive).2.2 with
      | zero => simp
      | succ k => simp
    | false =>
      cases hod : oracle disk with
      | false => simp [mainAdd, hsv, hod]
      | true =>
        cases hoc : oracle (processRecords disk recs domain interactive).1 with
        | false => cases hnb : noBackup <;> simp [mainAdd, hsv, hod, hoc, hnb]
        | true =>
          simp only [mainAdd, hsv, hod, hoc, Bool.not_false, Bool.not_true,
            Bool.true_and, Bool.and_false, Bool.false_eq_true, if_false,
            Bool.false_or]
          cases hz : (processRecords disk recs domain interactive).2.2 with
          | zero => simp
          | succ k => simp

/-- C9: `validate_ip_address` accepts exactly the strings splitting on
`.` into four components that each parse as an integer in [0, 255], and
the four concrete examples of the spec behave as stated. -/
theorem c9_ip_validation :
    (∀ s : Str, validate_ip_address s = true ↔
      ((splitOnDot s).length = 4 ∧
        ∀ p ∈ splitOnDot s, ∃ n : Int, pyInt p = some n ∧ 0 ≤ n ∧ n ≤ 255)) ∧
    validate_ip_address "256.1.1.1".data = false ∧
    validate_ip_address "1.2.3".data = false ∧
    validate_ip_address "1.2.3.4.5".data = false ∧
    validate_ip_address "192.168.1.100".data = true := by
  refine ⟨?_, by decide, by decide, by decide, by decide⟩
  intro s
  unfold validate_ip_address
  by_cases hlen : (splitOnDot s).length = 4
  · simp only [hlen, beq_self_eq_true, if_true, List.all_eq_true, true_and]
    constructor
    · intro hall p hp
      have := hall p hp
      cases hx : pyInt p with
      | none => rw [hx] at this; simp at this
      | some n =>
        rw [hx] at this
        refine ⟨n, rfl, ?_, ?_⟩ <;> simp_all
    · intro hall p hp
      obtain ⟨n, hn, h0, h255⟩ := hall p hp
      rw [hn]
      simp [h0, h255]
  · have : ((splitOnDot s).length == 4) = false := by
      simpa using hlen
    simp [this, hlen]
